import Mathlib

/-!
# Mini-Shell: the command dispatcher of `myshell.c`

A shallow embedding of `process_arglist` and its five executors.  A C function
becomes a Lean function that produces a `Run`: the list of system calls (and
executor entries) the process performs, in order, together with the way the
function ends.  The results of the system calls are not computed by the model:
they are read from an environment `Env`, indexed by the source line of the call,
so that every theorem quantifies over everything the operating system may answer.
-/

namespace MiniShell

/-! ## Data model -/

/-- Pointer array of type `char **`; `none` is the NULL pointer. -/
abbrev Arglist := List (Option String)

/-- The array the caller hands over: the tokens followed by the NULL terminator
(`arglist[count]`), as the entry point contract of `process_arglist` requires. -/
def mkArglist (tokens : List String) : Arglist :=
  tokens.map some ++ [none]

/-- Signal handlers used by the source (`sa.sa_handler`). -/
inductive Handler
  | SIG_IGN
  | SIG_DFL
  deriving DecidableEq, Repr

/-- Signals whose disposition the source changes. -/
inductive Signal
  | SIGINT
  | SIGCHLD
  deriving DecidableEq, Repr

/-- Flags of `open` (from `fcntl.h`); a call carries the list of or-ed flags. -/
inductive OFlag
  | O_RDONLY
  | O_WRONLY
  | O_APPEND
  | O_CREAT
  | O_TRUNC
  deriving DecidableEq, Repr

/-- The five functions `process_arglist` can route a child to. -/
inductive Executor
  | regular
  | background
  | pipeline
  | input_redirection
  | output_redirection
  deriving DecidableEq, Repr

/-- One observable step of a process.  System calls carry their arguments and
the value the operating system returned. -/
inductive Event
  | fork (ret : Int)
  | sigaction (signal : Signal) (handler : Handler) (ret : Int)
  | waitpid (pid : Int) (options : Int) (ret : Int) (errno : Int) (stat : Int)
  | pipe (ret : Int) (rd : Int) (wr : Int)
  | fopen (filename : Option String) (flags : List OFlag) (mode : Option Nat) (ret : Int)
  | dup2 (oldfd : Int) (newfd : Int) (ret : Int)
  | close (fd : Int) (ret : Int)
  | execvp (file : Option String) (argv : List String) (ret : Int)
  | call (ex : Executor) (symbol_index : Option Nat)
  | perror (msg : String)
  | exit (status : Int)
  deriving DecidableEq, Repr

/-- How a C function ends: it returns a value to its caller, the process calls
`exit`, the process image is replaced by a successful `execvp`, or the behaviour
is undefined (a read or write outside the array, `strcmp` on NULL, `execvp` with
a NULL file name). -/
inductive Outcome (α : Type)
  | returned (v : α)
  | exited (status : Int)
  | replaced
  | undefined
  deriving DecidableEq, Repr

/-- The run of a piece of code: what it did and how it ended. -/
structure Run (α : Type) where
  trace : List Event
  res : Outcome α
  deriving DecidableEq, Repr

/-- Sequencing of C statements: the continuation runs only when the first part
returned. -/
def Run.bind {α β : Type} (r : Run α) (f : α → Run β) : Run β :=
  match r.res with
  | .returned v => ⟨r.trace ++ (f v).trace, (f v).res⟩
  | .exited s => ⟨r.trace, .exited s⟩
  | .replaced => ⟨r.trace, .replaced⟩
  | .undefined => ⟨r.trace, .undefined⟩

instance : Monad Run where
  pure v := ⟨[], .returned v⟩
  bind := Run.bind

/-- The answers of the operating system, one per call site: `ret l` is the value
returned by the system call issued at source line `l`, `errno l` the error number
it leaves when it fails, `pipefd` the two descriptors stored by `pipe`, `stat`
the child status stored by `waitpid`. -/
structure Env where
  ret : Nat → Int
  errno : Nat → Int
  pipefd : Int × Int
  stat : Int

/-- Value of `EXIT_FAILURE` in `stdlib.h`. -/
def EXIT_FAILURE : Int := 1
/-- Error number `ENOENT` in `errno.h`. -/
def ENOENT : Int := 2
/-- Error number `EINTR` in `errno.h`. -/
def EINTR : Int := 4
/-- Error number `ECHILD` in `errno.h`. -/
def ECHILD : Int := 10

/-! ## Primitive steps -/

/-- A single event followed by a normal return of `v`. -/
def step {α : Type} (e : Event) (v : α) : Run α := ⟨[e], .returned v⟩

/-- Undefined behaviour reached. -/
def undefinedBehaviour {α : Type} : Run α := ⟨[], .undefined⟩

/-- Read `arglist[i]`. -/
def load (arglist : Arglist) (i : Nat) : Run (Option String) :=
  match arglist[i]? with
  | some p => pure p
  | none => undefinedBehaviour

/-- Assignment `arglist[i] = p`. -/
def store (arglist : Arglist) (i : Nat) (p : Option String) : Run Arglist :=
  if i < arglist.length then pure (arglist.set i p) else undefinedBehaviour

/-- Test `strcmp(arglist[i], s) == 0`. -/
def strcmp0 (arglist : Arglist) (i : Nat) (s : String) : Run Bool := do
  let p ← load arglist i
  match p with
  | some t => pure (decide (t = s))
  | none => undefinedBehaviour

/-- The strings an `argv` pointer denotes: everything up to the first NULL. -/
def argvOf : Arglist → List String
  | some s :: rest => s :: argvOf rest
  | _ => []

/-- Macro `handle_error(msg)`: print the diagnostic, then `exit(EXIT_FAILURE)`. -/
def handle_error {α : Type} (msg : String) : Run α :=
  ⟨[.perror msg, .exit EXIT_FAILURE], .exited EXIT_FAILURE⟩

/-- Macro `handle_sigaction(handler, signal)` expanded at source line `line`. -/
def handle_sigaction (env : Env) (line : Nat) (handler : Handler) (signal : Signal) :
    Run Unit := do
  let r ← step (.sigaction signal handler (env.ret line)) (env.ret line)
  if r = -1 then handle_error "sigaction"

/-- Call `execvp(file, argv)` at source line `line`.  It returns (with -1) only
when it fails. -/
def execvp (env : Env) (line : Nat) (file : Option String) (argv : Arglist) : Run Int :=
  match file with
  | none => ⟨[.execvp none (argvOf argv) (env.ret line)], .undefined⟩
  | some f =>
    if env.ret line = -1 then step (.execvp (some f) (argvOf argv) (-1)) (-1)
    else ⟨[.execvp (some f) (argvOf argv) (env.ret line)], .replaced⟩

/-- The three statements every executor ends with: report a failed `execvp`
(`"bash"` when the program does not exist) and exit. -/
def exec_failed {α : Type} (env : Env) (line : Nat) : Run α := do
  if env.errno line = ENOENT then handle_error "bash"
  handle_error "execvp"

/-- The parent side of every waiting branch (lines 111-116, 130-135, 149-154,
167-172): `waitpid(pid, &stat, 0)`, fatal unless the error is EINTR or ECHILD,
then `return 1`. -/
def wait_child (env : Env) (line : Nat) (pid : Int) : Run Int := do
  let cpid ← step (.waitpid pid 0 (env.ret line) (env.errno line) env.stat) (env.ret line)
  if cpid = -1 ∧ env.errno line ≠ EINTR ∧ env.errno line ≠ ECHILD then
    handle_error "waitpid"
  pure 1

/-! ## The executors -/

/-- Function `regular` (lines 182-191). -/
def regular (env : Env) (arglist : Arglist) : Run Arglist := do
  let _ ← step (.call .regular none) ()
  let file ← load arglist 0
  let _ ← execvp env 184 file arglist
  exec_failed env 184

/-- Function `background` (lines 198-208). -/
def background (env : Env) (symbol_index : Nat) (arglist : Arglist) : Run Arglist := do
  let _ ← step (.call .background (some symbol_index)) ()
  let arglist ← store arglist symbol_index none
  let file ← load arglist 0
  let _ ← execvp env 201 file arglist
  exec_failed env 201

/-- Function `pipeline` (lines 215-263). -/
def pipeline (env : Env) (symbol_index : Nat) (arglist : Arglist) : Run Arglist := do
  let _ ← step (.call .pipeline (some symbol_index)) ()
  let arglist ← store arglist symbol_index none
  let r ← step (.pipe (env.ret 222) env.pipefd.1 env.pipefd.2) (env.ret 222)
  if r = -1 then handle_error "pipe"
  let cpid ← step (.fork (env.ret 227)) (env.ret 227)
  if cpid = -1 then handle_error "fork"
  if cpid = 0 then
    let _ ← step (.close env.pipefd.2 (env.ret 236)) ()
    let _ ← step (.dup2 env.pipefd.1 0 (env.ret 237)) ()
    let _ ← step (.close env.pipefd.1 (env.ret 238)) ()
    let file ← load arglist (symbol_index + 1)
    let _ ← execvp env 239 file (arglist.drop (symbol_index + 1))
    exec_failed env 239
  else
    let _ ← step (.close env.pipefd.1 (env.ret 251)) ()
    let _ ← step (.dup2 env.pipefd.2 1 (env.ret 252)) ()
    let _ ← step (.close env.pipefd.2 (env.ret 253)) ()
    let file ← load arglist 0
    let _ ← execvp env 254 file arglist
    exec_failed env 254

/-- Function `input_redirection` (lines 270-291). -/
def input_redirection (env : Env) (symbol_index : Nat) (arglist : Arglist) :
    Run Arglist := do
  let _ ← step (.call .input_redirection (some symbol_index)) ()
  let filename ← load arglist (symbol_index + 1)
  let file_desc ← step (.fopen filename [.O_RDONLY] none (env.ret 273)) (env.ret 273)
  let arglist ← store arglist symbol_index none
  if file_desc = -1 then handle_error "open"
  let _ ← step (.dup2 file_desc 0 (env.ret 282)) ()
  let _ ← step (.close file_desc (env.ret 283)) ()
  let file ← load arglist 0
  let _ ← execvp env 284 file arglist
  exec_failed env 284

/-- Function `output_redirection` (lines 298-319). -/
def output_redirection (env : Env) (symbol_index : Nat) (arglist : Arglist) :
    Run Arglist := do
  let _ ← step (.call .output_redirection (some symbol_index)) ()
  let filename ← load arglist (symbol_index + 1)
  let file_desc ←
    step (.fopen filename [.O_WRONLY, .O_APPEND, .O_CREAT] (some 0o644) (env.ret 301))
      (env.ret 301)
  let arglist ← store arglist symbol_index none
  if file_desc = -1 then handle_error "open"
  let _ ← step (.dup2 file_desc 1 (env.ret 310)) ()
  let _ ← step (.close file_desc (env.ret 311)) ()
  let file ← load arglist 0
  let _ ← execvp env 312 file arglist
  exec_failed env 312

/-! ## The dispatcher -/

/-- Result of one `if` of the loop body: `some v` when the function executed
`return v`, `none` when control falls through; with the array as it is then. -/
abbrev Flow := Run (Option Int × Arglist)

/-- Run `next` unless `first` already returned from the function. -/
def orNext (first : Flow) (next : Arglist → Flow) : Flow := do
  let (v, arglist) ← first
  match v with
  | some x => pure (some x, arglist)
  | none => next arglist

/-- Lines 81-99: the BACKGROUND test and branch. -/
def ifBackground (env : Env) (pid : Int) (count : Nat) (i : Nat) (arglist : Arglist) :
    Flow := do
  let hit ← if (i : Int) = (count : Int) - 1 then strcmp0 arglist i "&" else pure false
  if hit then
    if pid = 0 then
      handle_sigaction env 86 .SIG_IGN .SIGINT
      let arglist ← background env i arglist
      pure (none, arglist)
    else
      handle_sigaction env 95 .SIG_IGN .SIGCHLD
      pure (some 1, arglist)
  else pure (none, arglist)

/-- Lines 101-118: the PIPELINE test and branch. -/
def ifPipeline (env : Env) (pid : Int) (i : Nat) (arglist : Arglist) : Flow := do
  let hit ← strcmp0 arglist i "|"
  if hit then
    if pid = 0 then
      let arglist ← pipeline env i arglist
      pure (none, arglist)
    else
      let v ← wait_child env 111 pid
      pure (some v, arglist)
  else pure (none, arglist)

/-- Lines 120-137: the INPUT test and branch. -/
def ifInput (env : Env) (pid : Int) (count : Nat) (i : Nat) (arglist : Arglist) :
    Flow := do
  let hit ← if (i : Int) = (count : Int) - 2 then strcmp0 arglist i "<" else pure false
  if hit then
    if pid = 0 then
      let arglist ← input_redirection env i arglist
      pure (none, arglist)
    else
      let v ← wait_child env 130 pid
      pure (some v, arglist)
  else pure (none, arglist)

/-- Lines 139-156: the OUTPUT test and branch. -/
def ifOutput (env : Env) (pid : Int) (count : Nat) (i : Nat) (arglist : Arglist) :
    Flow := do
  let hit ← if (i : Int) = (count : Int) - 2 then strcmp0 arglist i ">>" else pure false
  if hit then
    if pid = 0 then
      let arglist ← output_redirection env i arglist
      pure (none, arglist)
    else
      let v ← wait_child env 149 pid
      pure (some v, arglist)
  else pure (none, arglist)

/-- Body of the `for` loop (lines 80-157) at index `i`. -/
def loopBody (env : Env) (pid : Int) (count : Nat) (i : Nat) (arglist : Arglist) : Flow :=
  orNext (ifBackground env pid count i arglist) fun arglist =>
  orNext (ifPipeline env pid i arglist) fun arglist =>
  orNext (ifInput env pid count i arglist) fun arglist =>
  ifOutput env pid count i arglist

/-- The loop `for (i = ...; i < count; i++)` with `n = count - i` iterations left. -/
def forLoop (env : Env) (pid : Int) (count : Nat) : Nat → Nat → Arglist → Flow
  | 0, _, arglist => pure (none, arglist)
  | n + 1, i, arglist =>
    orNext (loopBody env pid count i arglist) fun arglist =>
    forLoop env pid count n (i + 1) arglist

/-- Function `process_arglist` (lines 63-176). -/
def process_arglist (env : Env) (count : Nat) (arglist : Arglist) : Run Int := do
  let pid ← step (.fork (env.ret 67)) (env.ret 67)
  if pid = -1 then handle_error "fork"
  if pid = 0 then handle_sigaction env 76 .SIG_DFL .SIGINT
  let (v, arglist) ← forLoop env pid count count 0 arglist
  match v with
  | some x => pure x
  | none =>
    if pid = 0 then
      let _ ← regular env arglist
      pure 1
    else
      wait_child env 167 pid

/-! ## Environments used in the examples -/

/-- Every call answers `v`. -/
def constEnv (v : Int) : Env :=
  { ret := fun _ => v, errno := fun _ => 0, pipefd := (3, 4), stat := 0 }

/-- As `base`, except that the call at line `l` answers `v` and leaves `e` in errno. -/
def Env.at (base : Env) (l : Nat) (v : Int) (e : Int) : Env :=
  { base with
    ret := fun k => if k = l then v else base.ret k
    errno := fun k => if k = l then e else base.errno k }

/-! ## Observations on runs and the selection rule -/

/-- The `execvp` calls of a trace: file name and argument vector. -/
def execs (tr : List Event) : List (Option String × List String) :=
  tr.filterMap fun e =>
    match e with
    | .execvp f a _ => some (f, a)
    | _ => none

/-- The executors entered in a trace, with the index they were given. -/
def invoked (tr : List Event) : List (Executor × Option Nat) :=
  tr.filterMap fun e =>
    match e with
    | .call x k => some (x, k)
    | _ => none

/-- The `sigaction` calls of a trace. -/
def sigactions (tr : List Event) : List (Signal × Handler) :=
  tr.filterMap fun e =>
    match e with
    | .sigaction s h _ => some (s, h)
    | _ => none

/-- The `waitpid` calls of a trace: the pid waited for and the options. -/
def waits (tr : List Event) : List (Int × Int) :=
  tr.filterMap fun e =>
    match e with
    | .waitpid p o _ _ _ => some (p, o)
    | _ => none

/-- The descriptor operations of a trace (`pipe`, `open`, `dup2`, `close`). -/
def rewirings (tr : List Event) : List Event :=
  tr.filter fun e =>
    match e with
    | .pipe _ _ _ => true
    | .fopen _ _ _ _ => true
    | .dup2 _ _ _ => true
    | .close _ _ => true
    | _ => false

/-- Disposition of `signal` at the moment the first executor is entered, starting
from disposition `d`; a `sigaction` call takes effect when it does not return -1. -/
def dispositionAtCall (signal : Signal) : Handler → List Event → Option Handler
  | _, [] => none
  | d, .call _ _ :: _ => some d
  | d, .sigaction s h r :: rest =>
    dispositionAtCall signal (if s = signal ∧ r ≠ -1 then h else d) rest
  | d, _ :: rest => dispositionAtCall signal d rest

/-- The selection rule in the words of the specification: the branch whose
condition holds at index `i`, among Background (`i` is the last index and the
token is `&`), Pipeline (the token is `|`), Input-Redirection (`i = count - 2`
and the token is `<`) and Output-Redirection (`i = count - 2` and the token is
`>>`).  At most one condition holds at a given index.  The code side is
`loopBody`; `loopBody_none`, `loopBody_child` and `loopBody_parent` relate the
two. -/
def matchAt (tokens : List String) (i : Nat) : Option Executor :=
  if i + 1 = tokens.length ∧ tokens[i]? = some "&" then some .background
  else if tokens[i]? = some "|" then some .pipeline
  else if i + 2 = tokens.length ∧ tokens[i]? = some "<" then some .input_redirection
  else if i + 2 = tokens.length ∧ tokens[i]? = some ">>" then some .output_redirection
  else none

/-- Branch `b` is selected at index `k`: its test holds at `k` and no test holds
at a smaller index. -/
def Selected (tokens : List String) (b : Executor) (k : Nat) : Prop :=
  matchAt tokens k = some b ∧ ∀ j, j < k → matchAt tokens j = none

/-- No test holds at any index: the loop runs to its end. -/
def NoMatch (tokens : List String) : Prop :=
  ∀ j, matchAt tokens j = none

/-- A run that does not return to its caller. -/
def Run.Stops {α : Type} (r : Run α) : Prop :=
  ∀ v, r.res ≠ .returned v

/-- A run that never returns, seen from a caller expecting another type. -/
def Run.noreturn {α β : Type} (r : Run α) : Run β :=
  ⟨r.trace,
    match r.res with
    | .returned _ => .undefined
    | .exited s => .exited s
    | .replaced => .replaced
    | .undefined => .undefined⟩

/-- What the child does once branch `b` has been chosen at index `k`. -/
def childBranch (env : Env) (b : Executor) (k : Nat) (arglist : Arglist) : Run Arglist :=
  match b with
  | .regular => regular env arglist
  | .background => do
    handle_sigaction env 86 .SIG_IGN .SIGINT
    background env k arglist
  | .pipeline => pipeline env k arglist
  | .input_redirection => input_redirection env k arglist
  | .output_redirection => output_redirection env k arglist

/-- What the parent does once branch `b` has been chosen. -/
def parentBranch (env : Env) (pid : Int) (b : Executor) : Run Int :=
  match b with
  | .regular => wait_child env 167 pid
  | .background => do
    handle_sigaction env 95 .SIG_IGN .SIGCHLD
    pure 1
  | .pipeline => wait_child env 111 pid
  | .input_redirection => wait_child env 130 pid
  | .output_redirection => wait_child env 149 pid

/-- The diagnostic and exit that follow an `execvp` that returned at line `line`. -/
def failTail (env : Env) (line : Nat) : List Event :=
  [.perror (if env.errno line = ENOENT then "bash" else "execvp"), .exit EXIT_FAILURE]

/-- Closed form of the end of every executor: the `execvp` call on `file` and
`argv` at line `line`, and what follows it. -/
def execEnd {α : Type} (env : Env) (line : Nat) (file : Option String)
    (argv : List String) : Run α :=
  match file with
  | none => ⟨[.execvp none argv (env.ret line)], .undefined⟩
  | some f =>
    if env.ret line = -1 then
      ⟨.execvp (some f) argv (-1) :: failTail env line, .exited EXIT_FAILURE⟩
    else ⟨[.execvp (some f) argv (env.ret line)], .replaced⟩

/-- The run `r` preceded by the events `pre`. -/
def Run.after {α : Type} (r : Run α) (pre : List Event) : Run α :=
  ⟨pre ++ r.trace, r.res⟩

/-- The call the read-eval-print loop makes: `process_arglist(count, arglist)`
with `count` tokens followed by the terminator. -/
def dispatch (env : Env) (tokens : List String) : Run Int :=
  process_arglist env tokens.length (mkArglist tokens)

/-- The process is the child of the `fork` at line 67. -/
def InChild (env : Env) : Prop := env.ret 67 = 0

/-- The process is the parent of a successful `fork` at line 67. -/
def InParent (env : Env) : Prop := env.ret 67 ≠ -1 ∧ env.ret 67 ≠ 0

/-- None of the three `sigaction` calls of `process_arglist` fails. -/
def SigactionOk (env : Env) : Prop :=
  env.ret 76 ≠ -1 ∧ env.ret 86 ≠ -1 ∧ env.ret 95 ≠ -1

/-- A token that is none of the four control tokens. -/
def Plain (t : String) : Prop :=
  t ≠ "&" ∧ t ≠ "|" ∧ t ≠ "<" ∧ t ≠ ">>"

instance (env : Env) : Decidable (InChild env) := by unfold InChild; infer_instance
instance (env : Env) : Decidable (InParent env) := by unfold InParent; infer_instance
instance (env : Env) : Decidable (SigactionOk env) := by unfold SigactionOk; infer_instance
instance (t : String) : Decidable (Plain t) := by unfold Plain; infer_instance
instance (tokens : List String) (b : Executor) (k : Nat) : Decidable (Selected tokens b k) := by
  unfold Selected; infer_instance

/-- An environment for the parent: `fork` answers pid 7, every other call 0. -/
def parentEnv : Env :=
  (constEnv 0).at 67 7 0

/-! ## Basic lemmas -/

@[simp] theorem bind_def {α β : Type} (r : Run α) (f : α → Run β) :
    (r >>= f) = r.bind f := rfl

@[simp] theorem pure_def {α : Type} (v : α) : (pure v : Run α) = ⟨[], .returned v⟩ := rfl

@[simp] theorem bind_returned {α β : Type} (tr : List Event) (v : α) (f : α → Run β) :
    Run.bind ⟨tr, .returned v⟩ f = ⟨tr ++ (f v).trace, (f v).res⟩ := rfl

@[simp] theorem bind_exited {α β : Type} (tr : List Event) (s : Int) (f : α → Run β) :
    Run.bind ⟨tr, .exited s⟩ f = ⟨tr, .exited s⟩ := rfl

@[simp] theorem bind_replaced {α β : Type} (tr : List Event) (f : α → Run β) :
    Run.bind ⟨tr, .replaced⟩ f = ⟨tr, .replaced⟩ := rfl

@[simp] theorem bind_undefined {α β : Type} (tr : List Event) (f : α → Run β) :
    Run.bind ⟨tr, .undefined⟩ f = ⟨tr, .undefined⟩ := rfl

theorem bind_of_stops {α β : Type} (r : Run α) (f : α → Run β) (h : r.Stops) :
    r.bind f = r.noreturn := by
  rcases r with ⟨tr, res⟩
  cases res with
  | returned v => exact absurd rfl (h v)
  | exited s => rfl
  | replaced => rfl
  | undefined => rfl

theorem stops_bind {α β : Type} (r : Run α) (f : α → Run β) (h : ∀ v, (f v).Stops) :
    (r.bind f).Stops := by
  rcases r with ⟨tr, res⟩
  cases res with
  | returned v => intro w; simpa using h v w
  | exited s => intro w; simp
  | replaced => intro w; simp
  | undefined => intro w; simp

theorem handle_error_stops {α : Type} (msg : String) : (handle_error msg : Run α).Stops := by
  intro v; simp [handle_error]

theorem exec_failed_stops {α : Type} (env : Env) (line : Nat) :
    (exec_failed env line : Run α).Stops := by
  unfold exec_failed
  simp only [bind_def]
  split <;> exact stops_bind _ _ fun _ => handle_error_stops _

theorem regular_stops (env : Env) (arglist : Arglist) : (regular env arglist).Stops := by
  unfold regular
  simp only [bind_def]
  repeat first
    | exact exec_failed_stops _ _
    | (apply stops_bind; intro _)
    | split

theorem background_stops (env : Env) (k : Nat) (arglist : Arglist) :
    (background env k arglist).Stops := by
  unfold background
  simp only [bind_def]
  repeat first
    | exact exec_failed_stops _ _
    | (apply stops_bind; intro _)
    | split

theorem input_redirection_stops (env : Env) (k : Nat) (arglist : Arglist) :
    (input_redirection env k arglist).Stops := by
  unfold input_redirection
  simp only [bind_def]
  repeat first
    | exact exec_failed_stops _ _
    | (apply stops_bind; intro _)
    | split

theorem output_redirection_stops (env : Env) (k : Nat) (arglist : Arglist) :
    (output_redirection env k arglist).Stops := by
  unfold output_redirection
  simp only [bind_def]
  repeat first
    | exact exec_failed_stops _ _
    | (apply stops_bind; intro _)
    | split

theorem pipeline_stops (env : Env) (k : Nat) (arglist : Arglist) :
    (pipeline env k arglist).Stops := by
  unfold pipeline
  simp only [bind_def]
  repeat first
    | exact exec_failed_stops _ _
    | (apply stops_bind; intro _)
    | split

theorem childBranch_stops (env : Env) (b : Executor) (k : Nat) (arglist : Arglist) :
    (childBranch env b k arglist).Stops := by
  cases b
  · exact regular_stops env arglist
  · exact stops_bind _ _ fun _ => background_stops env k arglist
  · exact pipeline_stops env k arglist
  · exact input_redirection_stops env k arglist
  · exact output_redirection_stops env k arglist

/-! ### The well-formed array -/

theorem mkArglist_length (tokens : List String) :
    (mkArglist tokens).length = tokens.length + 1 := by
  simp [mkArglist]

theorem mkArglist_getElem? (tokens : List String) (i : Nat) (h : i ≤ tokens.length) :
    (mkArglist tokens)[i]? = some tokens[i]? := by
  unfold mkArglist
  rcases Nat.lt_or_eq_of_le h with h | h
  · rw [List.getElem?_append_left (by simpa using h)]
    simp [List.getElem?_eq_getElem h]
  · subst h
    rw [List.getElem?_append_right (by simp)]
    simp

theorem load_mkArglist (tokens : List String) (i : Nat) (h : i ≤ tokens.length) :
    load (mkArglist tokens) i = ⟨[], .returned tokens[i]?⟩ := by
  simp [load, mkArglist_getElem? tokens i h]

theorem strcmp0_mkArglist (tokens : List String) (i : Nat) (t s : String)
    (h : tokens[i]? = some t) :
    strcmp0 (mkArglist tokens) i s = ⟨[], .returned (decide (t = s))⟩ := by
  have hi : i < tokens.length := by
    rcases Nat.lt_or_ge i tokens.length with h1 | h1
    · exact h1
    · rw [List.getElem?_eq_none h1] at h; cases h
  unfold strcmp0
  rw [load_mkArglist tokens i (Nat.le_of_lt hi), h]
  rfl

theorem argvOf_map_some (tokens : List String) (rest : Arglist) :
    argvOf (tokens.map some ++ none :: rest) = tokens := by
  induction tokens with
  | nil => rfl
  | cons t ts ih => simp [argvOf, ih]

theorem argvOf_mkArglist (tokens : List String) : argvOf (mkArglist tokens) = tokens :=
  argvOf_map_some tokens []

theorem set_mkArglist (tokens : List String) (k : Nat) (h : k ≤ tokens.length) :
    (mkArglist tokens).set k none
      = (tokens.take k).map some ++ none :: ((tokens.drop (k + 1)).map some ++
          if k < tokens.length then [none] else []) := by
  induction tokens generalizing k with
  | nil =>
    have : k = 0 := by simpa using h
    subst this
    simp [mkArglist]
  | cons t ts ih =>
    cases k with
    | zero => simp [mkArglist]
    | succ k =>
      have h2 : k ≤ ts.length := by simpa using h
      have := ih k h2
      simp only [mkArglist] at this
      simp [mkArglist, this]

theorem argvOf_set_mkArglist (tokens : List String) (k : Nat) (h : k ≤ tokens.length) :
    argvOf ((mkArglist tokens).set k none) = tokens.take k := by
  rw [set_mkArglist tokens k h]
  exact argvOf_map_some _ _

theorem drop_set_mkArglist (tokens : List String) (k : Nat) (h : k < tokens.length) :
    ((mkArglist tokens).set k none).drop (k + 1) = mkArglist (tokens.drop (k + 1)) := by
  rw [set_mkArglist tokens k (Nat.le_of_lt h)]
  have hl : ((tokens.take k).map some).length = k := by
    simp [List.length_take, Nat.min_eq_left (Nat.le_of_lt h)]
  rw [List.drop_append_eq_append_drop, hl, List.drop_eq_nil_of_le (by omega)]
  have h1 : k + 1 - k = 1 := by omega
  simp [h1, h, mkArglist]

theorem getElem?_set_mkArglist_zero (tokens : List String) (k : Nat)
    (h : k ≤ tokens.length) :
    ((mkArglist tokens).set k none)[0]? = some (if k = 0 then none else tokens[0]?) := by
  rw [set_mkArglist tokens k h]
  cases k with
  | zero => simp
  | succ k =>
    cases tokens with
    | nil => simp at h
    | cons t ts => simp

/-! ### One iteration of the loop -/

theorem int_eq_sub_one (i count : Nat) : ((i : Int) = (count : Int) - 1) ↔ i + 1 = count := by
  omega

theorem int_eq_sub_two (i count : Nat) : ((i : Int) = (count : Int) - 2) ↔ i + 2 = count := by
  omega

theorem run_eta {α : Type} (r : Run α) : (⟨[] ++ r.trace, r.res⟩ : Run α) = r := by
  cases r; rfl

theorem bind_assoc {α β γ : Type} (r : Run α) (f : α → Run β) (g : β → Run γ) :
    (r.bind f).bind g = r.bind fun v => (f v).bind g := by
  rcases r with ⟨tr, res⟩
  cases res with
  | returned v =>
    simp only [bind_returned]
    rcases f v with ⟨tr2, res2⟩
    cases res2 <;> simp [Run.bind]
  | exited s => rfl
  | replaced => rfl
  | undefined => rfl

theorem orNext_none (arglist : Arglist) (next : Arglist → Flow) :
    orNext ⟨[], .returned (none, arglist)⟩ next = next arglist := by
  simp only [orNext, bind_def, bind_returned]
  exact run_eta _

theorem noreturn_stops {α β : Type} (r : Run α) : (r.noreturn : Run β).Stops := by
  intro v
  rcases r with ⟨tr, res⟩
  cases res <;> simp [Run.noreturn]

theorem noreturn_noreturn {α β γ : Type} (r : Run α) :
    ((r.noreturn : Run β).noreturn : Run γ) = r.noreturn := by
  rcases r with ⟨tr, res⟩
  cases res <;> rfl

theorem orNext_noreturn {α : Type} (r : Run α) (next : Arglist → Flow) :
    orNext r.noreturn next = r.noreturn := by
  unfold orNext
  simp only [bind_def]
  rw [bind_of_stops _ _ (noreturn_stops r), noreturn_noreturn]

theorem ifBackground_miss (env : Env) (pid : Int) (tokens : List String) (i : Nat)
    (t : String) (ht : tokens[i]? = some t) (h : ¬(i + 1 = tokens.length ∧ t = "&")) :
    ifBackground env pid tokens.length i (mkArglist tokens)
      = ⟨[], .returned (none, mkArglist tokens)⟩ := by
  unfold ifBackground
  simp only [bind_def, int_eq_sub_one, strcmp0_mkArglist tokens i _ _ ht]
  by_cases h1 : i + 1 = tokens.length
  · have h2 : ¬ t = "&" := fun h2 => h ⟨h1, h2⟩
    simp [h1, h2]
  · simp [h1]

theorem ifPipeline_miss (env : Env) (pid : Int) (tokens : List String) (i : Nat)
    (t : String) (ht : tokens[i]? = some t) (h : ¬ t = "|") :
    ifPipeline env pid i (mkArglist tokens) = ⟨[], .returned (none, mkArglist tokens)⟩ := by
  unfold ifPipeline
  simp [strcmp0_mkArglist tokens i _ _ ht, h]

theorem ifInput_miss (env : Env) (pid : Int) (tokens : List String) (i : Nat)
    (t : String) (ht : tokens[i]? = some t) (h : ¬(i + 2 = tokens.length ∧ t = "<")) :
    ifInput env pid tokens.length i (mkArglist tokens)
      = ⟨[], .returned (none, mkArglist tokens)⟩ := by
  unfold ifInput
  simp only [bind_def, int_eq_sub_two, strcmp0_mkArglist tokens i _ _ ht]
  by_cases h1 : i + 2 = tokens.length
  · have h2 : ¬ t = "<" := fun h2 => h ⟨h1, h2⟩
    simp [h1, h2]
  · simp [h1]

theorem ifOutput_miss (env : Env) (pid : Int) (tokens : List String) (i : Nat)
    (t : String) (ht : tokens[i]? = some t) (h : ¬(i + 2 = tokens.length ∧ t = ">>")) :
    ifOutput env pid tokens.length i (mkArglist tokens)
      = ⟨[], .returned (none, mkArglist tokens)⟩ := by
  unfold ifOutput
  simp only [bind_def, int_eq_sub_two, strcmp0_mkArglist tokens i _ _ ht]
  by_cases h1 : i + 2 = tokens.length
  · have h2 : ¬ t = ">>" := fun h2 => h ⟨h1, h2⟩
    simp [h1, h2]
  · simp [h1]

theorem ifBackground_hit (env : Env) (pid : Int) (tokens : List String) (i : Nat)
    (ht : tokens[i]? = some "&") (h : i + 1 = tokens.length) :
    ifBackground env pid tokens.length i (mkArglist tokens)
      = if pid = 0 then
          (childBranch env .background i (mkArglist tokens)).bind fun a =>
            ⟨[], .returned (none, a)⟩
        else
          (parentBranch env pid .background).bind fun v =>
            ⟨[], .returned (some v, mkArglist tokens)⟩ := by
  unfold ifBackground childBranch parentBranch
  simp only [bind_def, int_eq_sub_one, strcmp0_mkArglist tokens i _ _ ht]
  simp only [h, bind_returned, pure_def, List.nil_append, decide_True, if_true, bind_assoc]

theorem ifPipeline_hit (env : Env) (pid : Int) (tokens : List String) (i : Nat)
    (ht : tokens[i]? = some "|") :
    ifPipeline env pid i (mkArglist tokens)
      = if pid = 0 then
          (childBranch env .pipeline i (mkArglist tokens)).bind fun a =>
            ⟨[], .returned (none, a)⟩
        else
          (parentBranch env pid .pipeline).bind fun v =>
            ⟨[], .returned (some v, mkArglist tokens)⟩ := by
  unfold ifPipeline childBranch parentBranch
  simp only [bind_def, strcmp0_mkArglist tokens i _ _ ht]
  simp only [bind_returned, pure_def, List.nil_append, decide_True, if_true]

theorem ifInput_hit (env : Env) (pid : Int) (tokens : List String) (i : Nat)
    (ht : tokens[i]? = some "<") (h : i + 2 = tokens.length) :
    ifInput env pid tokens.length i (mkArglist tokens)
      = if pid = 0 then
          (childBranch env .input_redirection i (mkArglist tokens)).bind fun a =>
            ⟨[], .returned (none, a)⟩
        else
          (parentBranch env pid .input_redirection).bind fun v =>
            ⟨[], .returned (some v, mkArglist tokens)⟩ := by
  unfold ifInput childBranch parentBranch
  simp only [bind_def, int_eq_sub_two, strcmp0_mkArglist tokens i _ _ ht]
  simp only [h, bind_returned, pure_def, List.nil_append, decide_True, if_true]

theorem ifOutput_hit (env : Env) (pid : Int) (tokens : List String) (i : Nat)
    (ht : tokens[i]? = some ">>") (h : i + 2 = tokens.length) :
    ifOutput env pid tokens.length i (mkArglist tokens)
      = if pid = 0 then
          (childBranch env .output_redirection i (mkArglist tokens)).bind fun a =>
            ⟨[], .returned (none, a)⟩
        else
          (parentBranch env pid .output_redirection).bind fun v =>
            ⟨[], .returned (some v, mkArglist tokens)⟩ := by
  unfold ifOutput childBranch parentBranch
  simp only [bind_def, int_eq_sub_two, strcmp0_mkArglist tokens i _ _ ht]
  simp only [h, bind_returned, pure_def, List.nil_append, decide_True, if_true]

theorem matchAt_some_lt (tokens : List String) (i : Nat) (b : Executor)
    (h : matchAt tokens i = some b) : i < tokens.length := by
  rcases Nat.lt_or_ge i tokens.length with h1 | h1
  · exact h1
  · simp [matchAt, List.getElem?_eq_none h1] at h

/-- The four conditions exclude one another, so `matchAt` names the branch of the
one condition that holds at the index. -/
theorem matchAt_eq_some_iff (tokens : List String) (i : Nat) :
    (matchAt tokens i = some .background ↔
      i + 1 = tokens.length ∧ tokens[i]? = some "&") ∧
    (matchAt tokens i = some .pipeline ↔ tokens[i]? = some "|") ∧
    (matchAt tokens i = some .input_redirection ↔
      i + 2 = tokens.length ∧ tokens[i]? = some "<") ∧
    (matchAt tokens i = some .output_redirection ↔
      i + 2 = tokens.length ∧ tokens[i]? = some ">>") := by
  unfold matchAt
  rcases h : tokens[i]? with _ | t
  · simp
  · simp only [Option.some.injEq]
    by_cases h1 : t = "&"
    · subst h1
      by_cases hl : i + 1 = tokens.length
      · have hl2 : ¬ i + 2 = tokens.length := by omega
        simp [hl, hl2]
      · simp [hl]
    · by_cases h2 : t = "|"
      · subst h2
        simp
      · by_cases h3 : t = "<"
        · subst h3
          by_cases hl : i + 2 = tokens.length <;> simp [hl]
        · by_cases h4 : t = ">>"
          · subst h4
            by_cases hl : i + 2 = tokens.length <;> simp [hl]
          · simp [h1, h2, h3, h4]

theorem matchAt_ne_regular (tokens : List String) (i : Nat) :
    matchAt tokens i ≠ some .regular := by
  unfold matchAt
  split_ifs <;> simp

theorem loopBody_none (env : Env) (pid : Int) (tokens : List String) (i : Nat)
    (hi : i < tokens.length) (h : matchAt tokens i = none) :
    loopBody env pid tokens.length i (mkArglist tokens)
      = ⟨[], .returned (none, mkArglist tokens)⟩ := by
  have ht : tokens[i]? = some tokens[i] := List.getElem?_eq_getElem hi
  unfold matchAt at h
  rw [ht] at h
  simp only [Option.some.injEq] at h
  split_ifs at h with h1 h2 h3 h4
  unfold loopBody
  rw [ifBackground_miss env pid tokens i _ ht h1, orNext_none,
    ifPipeline_miss env pid tokens i _ ht h2, orNext_none,
    ifInput_miss env pid tokens i _ ht h3, orNext_none,
    ifOutput_miss env pid tokens i _ ht h4]

/-- The loop body in the child at an index where a test holds: the branch runs
and, as no executor returns, nothing follows it. -/
theorem loopBody_child (env : Env) (tokens : List String) (i : Nat) (b : Executor)
    (h : matchAt tokens i = some b) :
    loopBody env 0 tokens.length i (mkArglist tokens)
      = (childBranch env b i (mkArglist tokens)).noreturn := by
  have hi := matchAt_some_lt tokens i b h
  have ht : tokens[i]? = some tokens[i] := List.getElem?_eq_getElem hi
  have hs := fun x => bind_of_stops (childBranch env x i (mkArglist tokens))
    (fun a => (⟨[], .returned (none, a)⟩ : Flow)) (childBranch_stops env x i _)
  unfold matchAt at h
  rw [ht] at h
  simp only [Option.some.injEq] at h
  unfold loopBody
  split_ifs at h with h1 h2 h3 h4
  · cases h
    rw [h1.2] at ht
    rw [ifBackground_hit env 0 tokens i ht h1.1, if_pos rfl, hs, orNext_noreturn]
  · cases h
    rw [ifBackground_miss env 0 tokens i _ ht h1, orNext_none]
    rw [h2] at ht
    rw [ifPipeline_hit env 0 tokens i ht, if_pos rfl, hs, orNext_noreturn]
  · cases h
    rw [ifBackground_miss env 0 tokens i _ ht h1, orNext_none,
      ifPipeline_miss env 0 tokens i _ ht h2, orNext_none]
    rw [h3.2] at ht
    rw [ifInput_hit env 0 tokens i ht h3.1, if_pos rfl, hs, orNext_noreturn]
  · cases h
    rw [ifBackground_miss env 0 tokens i _ ht h1, orNext_none,
      ifPipeline_miss env 0 tokens i _ ht h2, orNext_none,
      ifInput_miss env 0 tokens i _ ht h3, orNext_none]
    rw [h4.2] at ht
    rw [ifOutput_hit env 0 tokens i ht h4.1, if_pos rfl, hs]

/-- The loop body in the parent at an index where a test holds: the parent side
of the branch runs and the function returns its value. -/
theorem loopBody_parent (env : Env) (pid : Int) (hpid : pid ≠ 0) (tokens : List String)
    (i : Nat) (b : Executor) (h : matchAt tokens i = some b) :
    loopBody env pid tokens.length i (mkArglist tokens)
      = (parentBranch env pid b).bind fun v =>
          ⟨[], .returned (some v, mkArglist tokens)⟩ := by
  have hi := matchAt_some_lt tokens i b h
  have ht : tokens[i]? = some tokens[i] := List.getElem?_eq_getElem hi
  have hn : ∀ (r : Run Int) (next : Arglist → Flow),
      orNext (r.bind fun v => ⟨[], .returned (some v, mkArglist tokens)⟩) next
        = r.bind fun v => ⟨[], .returned (some v, mkArglist tokens)⟩ := by
    intro r next
    unfold orNext
    simp only [bind_def, bind_assoc, bind_returned, pure_def, List.nil_append]
  unfold matchAt at h
  rw [ht] at h
  simp only [Option.some.injEq] at h
  unfold loopBody
  split_ifs at h with h1 h2 h3 h4
  · cases h
    rw [h1.2] at ht
    rw [ifBackground_hit env pid tokens i ht h1.1, if_neg hpid, hn]
  · cases h
    rw [ifBackground_miss env pid tokens i _ ht h1, orNext_none]
    rw [h2] at ht
    rw [ifPipeline_hit env pid tokens i ht, if_neg hpid, hn]
  · cases h
    rw [ifBackground_miss env pid tokens i _ ht h1, orNext_none,
      ifPipeline_miss env pid tokens i _ ht h2, orNext_none]
    rw [h3.2] at ht
    rw [ifInput_hit env pid tokens i ht h3.1, if_neg hpid, hn]
  · cases h
    rw [ifBackground_miss env pid tokens i _ ht h1, orNext_none,
      ifPipeline_miss env pid tokens i _ ht h2, orNext_none,
      ifInput_miss env pid tokens i _ ht h3, orNext_none]
    rw [h4.2] at ht
    rw [ifOutput_hit env pid tokens i ht h4.1, if_neg hpid]


/-! ### The whole loop and the whole function -/

theorem forLoop_none (env : Env) (pid : Int) (tokens : List String) (n i : Nat)
    (hn : i + n = tokens.length)
    (h : ∀ j, i ≤ j → matchAt tokens j = none) :
    forLoop env pid tokens.length n i (mkArglist tokens)
      = ⟨[], .returned (none, mkArglist tokens)⟩ := by
  induction n generalizing i with
  | zero => rfl
  | succ n ih =>
    unfold forLoop
    rw [loopBody_none env pid tokens i (by omega) (h i (Nat.le_refl i)), orNext_none]
    exact ih (i + 1) (by omega) fun j hj => h j (by omega)

theorem forLoop_child (env : Env) (tokens : List String) (b : Executor) (k n i : Nat)
    (hn : i + n = tokens.length) (hik : i ≤ k)
    (hk : matchAt tokens k = some b)
    (h : ∀ j, i ≤ j → j < k → matchAt tokens j = none) :
    forLoop env 0 tokens.length n i (mkArglist tokens)
      = (childBranch env b k (mkArglist tokens)).noreturn := by
  have hlt := matchAt_some_lt tokens k b hk
  induction n generalizing i with
  | zero => omega
  | succ n ih =>
    unfold forLoop
    rcases Nat.lt_or_eq_of_le hik with hlt2 | heq
    · rw [loopBody_none env 0 tokens i (by omega) (h i (Nat.le_refl i) hlt2), orNext_none]
      exact ih (i + 1) (by omega) hlt2 fun j hj hjk => h j (by omega) hjk
    · subst heq
      rw [loopBody_child env tokens i b hk, orNext_noreturn]

theorem forLoop_parent (env : Env) (pid : Int) (hpid : pid ≠ 0) (tokens : List String)
    (b : Executor) (k n i : Nat)
    (hn : i + n = tokens.length) (hik : i ≤ k)
    (hk : matchAt tokens k = some b)
    (h : ∀ j, i ≤ j → j < k → matchAt tokens j = none) :
    forLoop env pid tokens.length n i (mkArglist tokens)
      = (parentBranch env pid b).bind fun v =>
          ⟨[], .returned (some v, mkArglist tokens)⟩ := by
  have hlt := matchAt_some_lt tokens k b hk
  induction n generalizing i with
  | zero => omega
  | succ n ih =>
    unfold forLoop
    rcases Nat.lt_or_eq_of_le hik with hlt2 | heq
    · rw [loopBody_none env pid tokens i (by omega) (h i (Nat.le_refl i) hlt2), orNext_none]
      exact ih (i + 1) (by omega) hlt2 fun j hj hjk => h j (by omega) hjk
    · subst heq
      rw [loopBody_parent env pid hpid tokens i b hk]
      unfold orNext
      simp only [bind_def, bind_assoc, bind_returned, pure_def, List.nil_append]

/-- Every token sequence either has no matching index or selects one branch. -/
theorem selected_or_noMatch (tokens : List String) :
    NoMatch tokens ∨ ∃ b k, Selected tokens b k := by
  by_cases h : ∃ j, matchAt tokens j ≠ none
  · right
    have hmin : ∀ j, j < Nat.find h → matchAt tokens j = none := fun j hj =>
      not_not.mp (Nat.find_min h hj)
    have hk := Nat.find_spec h
    rcases hb : matchAt tokens (Nat.find h) with _ | b
    · exact absurd hb hk
    · exact ⟨b, Nat.find h, hb, hmin⟩
  · left
    intro j
    exact not_not.mp fun hj => h ⟨j, hj⟩

theorem selected_unique (tokens : List String) (b c : Executor) (k m : Nat)
    (h1 : Selected tokens b k) (h2 : Selected tokens c m) : b = c ∧ k = m := by
  have hkm : k = m := by
    rcases Nat.lt_trichotomy k m with h | h | h
    · have := h2.2 k h
      rw [h1.1] at this
      cases this
    · exact h
    · have := h1.2 m h
      rw [h2.1] at this
      cases this
  subst hkm
  have := h1.1.symm.trans h2.1
  exact ⟨Option.some.inj this, rfl⟩

theorem selected_ne_regular (tokens : List String) (k : Nat) :
    ¬ Selected tokens .regular k :=
  fun h => matchAt_ne_regular tokens k h.1

/-- The child when a branch is selected. -/
theorem child_selected (env : Env) (tokens : List String) (b : Executor) (k : Nat)
    (hchild : env.ret 67 = 0) (hsel : Selected tokens b k) :
    process_arglist env tokens.length (mkArglist tokens)
      = (step (.fork 0) ()).bind fun _ =>
          (handle_sigaction env 76 .SIG_DFL .SIGINT).bind fun _ =>
            (childBranch env b k (mkArglist tokens)).noreturn := by
  unfold process_arglist
  simp only [bind_def, hchild, step, bind_returned]
  rw [forLoop_child env tokens b k tokens.length 0 (by omega) (Nat.zero_le k) hsel.1
    fun j _ hj => hsel.2 j hj]
  simp [bind_assoc, bind_of_stops _ _ (noreturn_stops _), noreturn_noreturn]

/-- The child when no test holds at any index. -/
theorem child_noMatch (env : Env) (tokens : List String)
    (hchild : env.ret 67 = 0) (hno : NoMatch tokens) :
    process_arglist env tokens.length (mkArglist tokens)
      = (step (.fork 0) ()).bind fun _ =>
          (handle_sigaction env 76 .SIG_DFL .SIGINT).bind fun _ =>
            (regular env (mkArglist tokens)).noreturn := by
  unfold process_arglist
  simp only [bind_def, hchild, step, bind_returned]
  rw [forLoop_none env 0 tokens tokens.length 0 (by omega) fun j _ => hno j]
  simp [bind_assoc, bind_of_stops _ _ (regular_stops _ _)]

/-- The parent when a branch is selected. -/
theorem parent_selected (env : Env) (tokens : List String) (b : Executor) (k : Nat)
    (h1 : env.ret 67 ≠ -1) (h0 : env.ret 67 ≠ 0) (hsel : Selected tokens b k) :
    process_arglist env tokens.length (mkArglist tokens)
      = (parentBranch env (env.ret 67) b).after [.fork (env.ret 67)] := by
  unfold process_arglist
  simp only [bind_def, step, bind_returned]
  rw [forLoop_parent env (env.ret 67) h0 tokens b k tokens.length 0 (by omega)
    (Nat.zero_le k) hsel.1 fun j _ hj => hsel.2 j hj]
  rcases hp : parentBranch env (env.ret 67) b with ⟨tr, res⟩
  cases res <;> simp [h1, h0, Run.after, Run.bind]

/-- The parent when no test holds at any index. -/
theorem parent_noMatch (env : Env) (tokens : List String)
    (h1 : env.ret 67 ≠ -1) (h0 : env.ret 67 ≠ 0) (hno : NoMatch tokens) :
    process_arglist env tokens.length (mkArglist tokens)
      = (wait_child env 167 (env.ret 67)).after [.fork (env.ret 67)] := by
  unfold process_arglist
  simp only [bind_def, step, bind_returned]
  rw [forLoop_none env (env.ret 67) tokens tokens.length 0 (by omega) fun j _ => hno j]
  simp [h1, h0, Run.after]

/-! ### Closed forms -/

theorem handle_sigaction_ok (env : Env) (line : Nat) (h : Handler) (s : Signal)
    (hok : env.ret line ≠ -1) :
    handle_sigaction env line h s = ⟨[.sigaction s h (env.ret line)], .returned ()⟩ := by
  simp [handle_sigaction, step, hok]

theorem exec_tail_eq {α : Type} (env : Env) (line : Nat) (file : Option String)
    (argv : Arglist) :
    ((execvp env line file argv).bind fun _ => (exec_failed env line : Run α))
      = execEnd env line file (argvOf argv) := by
  unfold execvp execEnd exec_failed failTail
  cases file with
  | none => rfl
  | some f =>
    by_cases h : env.ret line = -1
    · by_cases h2 : env.errno line = ENOENT <;> simp [h, h2, step, handle_error]
    · simp [h]

theorem execEnd_noreturn {α β : Type} (env : Env) (line : Nat) (file : Option String)
    (argv : List String) :
    ((execEnd env line file argv : Run α).noreturn : Run β) = execEnd env line file argv := by
  unfold execEnd
  cases file with
  | none => rfl
  | some f => by_cases h : env.ret line = -1 <;> simp [h, Run.noreturn]

theorem after_noreturn {α β : Type} (r : Run α) (pre : List Event) :
    ((r.after pre).noreturn : Run β) = (r.noreturn : Run β).after pre := rfl

theorem regular_eq (env : Env) (tokens : List String) :
    regular env (mkArglist tokens)
      = (execEnd env 184 tokens[0]? tokens).after [.call .regular none] := by
  unfold regular
  simp only [bind_def, step, bind_returned, load_mkArglist tokens 0 (Nat.zero_le _),
    exec_tail_eq, argvOf_mkArglist]
  rfl

theorem background_eq (env : Env) (tokens : List String) (k : Nat) (hk : k ≤ tokens.length) :
    background env k (mkArglist tokens)
      = (execEnd env 201 (if k = 0 then none else tokens[0]?) (tokens.take k)).after
          [.call .background (some k)] := by
  unfold background
  have hst : store (mkArglist tokens) k none
      = ⟨[], .returned ((mkArglist tokens).set k none)⟩ := by
    simp [store, mkArglist_length, Nat.lt_succ_of_le hk]
  have hld : load ((mkArglist tokens).set k none) 0
      = ⟨[], .returned (if k = 0 then none else tokens[0]?)⟩ := by
    simp [load, getElem?_set_mkArglist_zero tokens k hk]
  simp only [bind_def, step, bind_returned, hst, hld, exec_tail_eq,
    argvOf_set_mkArglist tokens k hk]
  rfl

theorem store_mkArglist (tokens : List String) (k : Nat) (hk : k ≤ tokens.length) :
    store (mkArglist tokens) k none = ⟨[], .returned ((mkArglist tokens).set k none)⟩ := by
  simp [store, mkArglist_length, Nat.lt_succ_of_le hk]

theorem load_set_zero (tokens : List String) (k : Nat) (hk : k ≤ tokens.length) :
    load ((mkArglist tokens).set k none) 0
      = ⟨[], .returned (if k = 0 then none else tokens[0]?)⟩ := by
  simp [load, getElem?_set_mkArglist_zero tokens k hk]

theorem load_set_succ (tokens : List String) (k : Nat) (hk : k < tokens.length) :
    load ((mkArglist tokens).set k none) (k + 1) = ⟨[], .returned tokens[k + 1]?⟩ := by
  unfold load
  rw [List.getElem?_set_ne (by omega), mkArglist_getElem? tokens (k + 1) hk]
  rfl

theorem input_redirection_eq (env : Env) (tokens : List String) (k : Nat)
    (hk : k < tokens.length) :
    input_redirection env k (mkArglist tokens)
      = if env.ret 273 = -1 then
          ⟨[.call .input_redirection (some k),
            .fopen tokens[k + 1]? [.O_RDONLY] none (env.ret 273),
            .perror "open", .exit EXIT_FAILURE], .exited EXIT_FAILURE⟩
        else
          (execEnd env 284 (if k = 0 then none else tokens[0]?) (tokens.take k)).after
            [.call .input_redirection (some k),
             .fopen tokens[k + 1]? [.O_RDONLY] none (env.ret 273),
             .dup2 (env.ret 273) 0 (env.ret 282),
             .close (env.ret 273) (env.ret 283)] := by
  unfold input_redirection
  simp only [bind_def, step, bind_returned, load_mkArglist tokens (k + 1) hk,
    store_mkArglist tokens k (Nat.le_of_lt hk)]
  by_cases h : env.ret 273 = -1
  · simp [h, handle_error]
  · simp only [h, if_false, pure_def, bind_returned, load_set_zero tokens k (Nat.le_of_lt hk),
      exec_tail_eq, argvOf_set_mkArglist tokens k (Nat.le_of_lt hk)]
    simp [Run.after]

theorem output_redirection_eq (env : Env) (tokens : List String) (k : Nat)
    (hk : k < tokens.length) :
    output_redirection env k (mkArglist tokens)
      = if env.ret 301 = -1 then
          ⟨[.call .output_redirection (some k),
            .fopen tokens[k + 1]? [.O_WRONLY, .O_APPEND, .O_CREAT] (some 0o644) (env.ret 301),
            .perror "open", .exit EXIT_FAILURE], .exited EXIT_FAILURE⟩
        else
          (execEnd env 312 (if k = 0 then none else tokens[0]?) (tokens.take k)).after
            [.call .output_redirection (some k),
             .fopen tokens[k + 1]? [.O_WRONLY, .O_APPEND, .O_CREAT] (some 0o644) (env.ret 301),
             .dup2 (env.ret 301) 1 (env.ret 310),
             .close (env.ret 301) (env.ret 311)] := by
  unfold output_redirection
  simp only [bind_def, step, bind_returned, load_mkArglist tokens (k + 1) hk,
    store_mkArglist tokens k (Nat.le_of_lt hk)]
  by_cases h : env.ret 301 = -1
  · simp [h, handle_error]
  · simp only [h, if_false, pure_def, bind_returned, load_set_zero tokens k (Nat.le_of_lt hk),
      exec_tail_eq, argvOf_set_mkArglist tokens k (Nat.le_of_lt hk)]
    simp [Run.after]

theorem pipeline_eq (env : Env) (tokens : List String) (k : Nat) (hk : k < tokens.length) :
    pipeline env k (mkArglist tokens)
      = if env.ret 222 = -1 then
          ⟨[.call .pipeline (some k), .pipe (env.ret 222) env.pipefd.1 env.pipefd.2,
            .perror "pipe", .exit EXIT_FAILURE], .exited EXIT_FAILURE⟩
        else if env.ret 227 = -1 then
          ⟨[.call .pipeline (some k), .pipe (env.ret 222) env.pipefd.1 env.pipefd.2,
            .fork (env.ret 227), .perror "fork", .exit EXIT_FAILURE], .exited EXIT_FAILURE⟩
        else if env.ret 227 = 0 then
          (execEnd env 239 tokens[k + 1]? (tokens.drop (k + 1))).after
            [.call .pipeline (some k), .pipe (env.ret 222) env.pipefd.1 env.pipefd.2,
             .fork (env.ret 227),
             .close env.pipefd.2 (env.ret 236),
             .dup2 env.pipefd.1 0 (env.ret 237),
             .close env.pipefd.1 (env.ret 238)]
        else
          (execEnd env 254 (if k = 0 then none else tokens[0]?) (tokens.take k)).after
            [.call .pipeline (some k), .pipe (env.ret 222) env.pipefd.1 env.pipefd.2,
             .fork (env.ret 227),
             .close env.pipefd.1 (env.ret 251),
             .dup2 env.pipefd.2 1 (env.ret 252),
             .close env.pipefd.2 (env.ret 253)] := by
  unfold pipeline
  simp only [bind_def, step, bind_returned, store_mkArglist tokens k (Nat.le_of_lt hk)]
  by_cases h : env.ret 222 = -1
  · simp [h, handle_error]
  · by_cases h2 : env.ret 227 = -1
    · simp [h, h2, handle_error]
    · by_cases h3 : env.ret 227 = 0
      · simp only [h, h2, h3, if_false, if_true, pure_def, bind_returned,
          load_set_succ tokens k hk, exec_tail_eq, drop_set_mkArglist tokens k hk,
          argvOf_mkArglist]
        simp [Run.after]
      · simp only [h, h2, h3, if_false, pure_def, bind_returned,
          load_set_zero tokens k (Nat.le_of_lt hk), exec_tail_eq,
          argvOf_set_mkArglist tokens k (Nat.le_of_lt hk)]
        simp [Run.after]

theorem wait_child_eq (env : Env) (line : Nat) (pid : Int) :
    wait_child env line pid
      = if env.ret line = -1 ∧ env.errno line ≠ EINTR ∧ env.errno line ≠ ECHILD then
          ⟨[.waitpid pid 0 (env.ret line) (env.errno line) env.stat,
            .perror "waitpid", .exit EXIT_FAILURE], .exited EXIT_FAILURE⟩
        else ⟨[.waitpid pid 0 (env.ret line) (env.errno line) env.stat], .returned 1⟩ := by
  unfold wait_child
  simp only [bind_def, step, bind_returned]
  by_cases h : env.ret line = -1 ∧ env.errno line ≠ EINTR ∧ env.errno line ≠ ECHILD
  · rw [if_pos h, if_pos h]
    simp [handle_error]
  · rw [if_neg h, if_neg h]
    simp

/-- What the parent does in any of the four waiting branches and in Regular. -/
theorem parentBranch_wait (env : Env) (pid : Int) (b : Executor) (hb : b ≠ .background) :
    ∃ line, parentBranch env pid b = wait_child env line pid := by
  cases b
  · exact ⟨167, rfl⟩
  · exact absurd rfl hb
  · exact ⟨111, rfl⟩
  · exact ⟨130, rfl⟩
  · exact ⟨149, rfl⟩

theorem parentBranch_background (env : Env) (pid : Int) (hok : env.ret 95 ≠ -1) :
    parentBranch env pid .background
      = ⟨[.sigaction .SIGCHLD .SIG_IGN (env.ret 95)], .returned 1⟩ := by
  unfold parentBranch
  simp [handle_sigaction_ok env 95 _ _ hok]

/-- The parent of any token sequence: a fork event followed by either the
Background side or one wait. -/
theorem parent_cases (env : Env) (tokens : List String) (hp : InParent env) :
    ((∃ k, Selected tokens .background k) ∧
      dispatch env tokens = (parentBranch env (env.ret 67) .background).after
        [.fork (env.ret 67)]) ∨
    ((¬ ∃ k, Selected tokens .background k) ∧
      ∃ line, dispatch env tokens = (wait_child env line (env.ret 67)).after
        [.fork (env.ret 67)]) := by
  rcases selected_or_noMatch tokens with hno | ⟨b, k, hsel⟩
  · right
    refine ⟨?_, 167, parent_noMatch env tokens hp.1 hp.2 hno⟩
    rintro ⟨k, hk⟩
    have := hno k
    rw [hk.1] at this
    cases this
  · by_cases hb : b = .background
    · subst hb
      exact Or.inl ⟨⟨k, hsel⟩, parent_selected env tokens _ k hp.1 hp.2 hsel⟩
    · right
      refine ⟨?_, ?_⟩
      · rintro ⟨m, hm⟩
        exact hb (selected_unique tokens _ _ _ _ hsel hm).1
      · obtain ⟨line, hl⟩ := parentBranch_wait env (env.ret 67) b hb
        exact ⟨line, by rw [← hl]; exact parent_selected env tokens b k hp.1 hp.2 hsel⟩

/-! ### The child in closed form -/

theorem child_selected_eq (env : Env) (tokens : List String) (b : Executor) (k : Nat)
    (hchild : InChild env) (hok : env.ret 76 ≠ -1) (hsel : Selected tokens b k) :
    dispatch env tokens
      = ((childBranch env b k (mkArglist tokens)).noreturn : Run Int).after
          [.fork 0, .sigaction .SIGINT .SIG_DFL (env.ret 76)] := by
  unfold dispatch
  rw [child_selected env tokens b k hchild hsel, handle_sigaction_ok env 76 _ _ hok]
  simp [step, Run.after]

theorem child_noMatch_eq (env : Env) (tokens : List String)
    (hchild : InChild env) (hok : env.ret 76 ≠ -1) (hno : NoMatch tokens) :
    dispatch env tokens
      = (execEnd env 184 tokens[0]? tokens : Run Int).after
          [.fork 0, .sigaction .SIGINT .SIG_DFL (env.ret 76), .call .regular none] := by
  unfold dispatch
  rw [child_noMatch env tokens hchild hno, handle_sigaction_ok env 76 _ _ hok, regular_eq,
    after_noreturn, execEnd_noreturn]
  simp [step, Run.after]

theorem execs_execEnd {α : Type} (env : Env) (line : Nat) (file : Option String)
    (argv : List String) :
    execs (execEnd env line file argv : Run α).trace = [(file, argv)] := by
  unfold execEnd failTail
  cases file with
  | none => rfl
  | some f => by_cases h : env.ret line = -1 <;> simp [h, execs]

theorem invoked_execEnd {α : Type} (env : Env) (line : Nat) (file : Option String)
    (argv : List String) :
    invoked (execEnd env line file argv : Run α).trace = [] := by
  unfold execEnd failTail
  cases file with
  | none => rfl
  | some f => by_cases h : env.ret line = -1 <;> simp [h, invoked]

theorem rewirings_execEnd {α : Type} (env : Env) (line : Nat) (file : Option String)
    (argv : List String) :
    rewirings (execEnd env line file argv : Run α).trace = [] := by
  unfold execEnd failTail
  cases file with
  | none => rfl
  | some f => by_cases h : env.ret line = -1 <;> simp [h, rewirings]

theorem sigactions_execEnd {α : Type} (env : Env) (line : Nat) (file : Option String)
    (argv : List String) :
    sigactions (execEnd env line file argv : Run α).trace = [] := by
  unfold execEnd failTail
  cases file with
  | none => rfl
  | some f => by_cases h : env.ret line = -1 <;> simp [h, sigactions]

theorem execEnd_stops {α : Type} (env : Env) (line : Nat) (file : Option String)
    (argv : List String) (v : α) :
    (execEnd env line file argv : Run α).res ≠ .returned v := by
  unfold execEnd
  cases file with
  | none => simp
  | some f => by_cases h : env.ret line = -1 <;> simp [h]

theorem execs_append (a b : List Event) : execs (a ++ b) = execs a ++ execs b := by
  simp [execs]

theorem invoked_append (a b : List Event) : invoked (a ++ b) = invoked a ++ invoked b := by
  simp [invoked]

theorem rewirings_append (a b : List Event) :
    rewirings (a ++ b) = rewirings a ++ rewirings b := by
  simp [rewirings]

theorem sigactions_append (a b : List Event) :
    sigactions (a ++ b) = sigactions a ++ sigactions b := by
  simp [sigactions]

theorem noMatch_of_plain (tokens : List String) (h : ∀ t, t ∈ tokens → Plain t) :
    NoMatch tokens := by
  intro j
  rcases hj : tokens[j]? with _ | t
  · simp [matchAt, hj]
  · have hp := h t (List.getElem?_mem hj)
    unfold Plain at hp
    simp [matchAt, hj, hp.1, hp.2.1, hp.2.2.1, hp.2.2.2]

theorem matchAt_eq_none (tokens : List String) (j : Nat)
    (h1 : ¬(j + 1 = tokens.length ∧ tokens[j]? = some "&"))
    (h2 : tokens[j]? ≠ some "|")
    (h3 : ¬(j + 2 = tokens.length ∧ tokens[j]? = some "<"))
    (h4 : ¬(j + 2 = tokens.length ∧ tokens[j]? = some ">>")) :
    matchAt tokens j = none := by
  unfold matchAt
  rw [if_neg h1, if_neg h2, if_neg h3, if_neg h4]

theorem getLast?_eq_of_succ (init : List String) (j : Nat) (t : String)
    (hj : j + 1 = init.length) (ht : init[j]? = some t) : init.getLast? = some t := by
  rw [List.getLast?_eq_getElem?]
  have : init.length - 1 = j := by omega
  rw [this, ht]

/-- A trailing `&` selects Background when no `|` precedes it and the token
before it is no redirection operator. -/
theorem selected_background (init : List String)
    (hpipe : ∀ t, t ∈ init → t ≠ "|")
    (hin : init.getLast? ≠ some "<") (hout : init.getLast? ≠ some ">>") :
    Selected (init ++ ["&"]) .background init.length := by
  constructor
  · simp [matchAt]
  · intro j hj
    have hget : (init ++ ["&"])[j]? = some init[j] := by
      rw [List.getElem?_append_left hj, List.getElem?_eq_getElem hj]
    have hlen : (init ++ ["&"]).length = init.length + 1 := by simp
    apply matchAt_eq_none
    · rw [hlen]; omega
    · rw [hget]
      intro h
      exact hpipe _ (List.getElem_mem hj) (Option.some.inj h)
    · rw [hlen, hget]
      rintro ⟨h1, h2⟩
      exact hin (getLast?_eq_of_succ init j _ (by omega)
        (by rw [List.getElem?_eq_getElem hj]; exact h2))
    · rw [hlen, hget]
      rintro ⟨h1, h2⟩
      exact hout (getLast?_eq_of_succ init j _ (by omega)
        (by rw [List.getElem?_eq_getElem hj]; exact h2))

theorem childBranch_background_eq (env : Env) (tokens : List String) (k : Nat)
    (hk : k ≤ tokens.length) (hok : env.ret 86 ≠ -1) :
    (childBranch env .background k (mkArglist tokens)).noreturn
      = (execEnd env 201 (if k = 0 then none else tokens[0]?) (tokens.take k) : Run Int).after
          [.sigaction .SIGINT .SIG_IGN (env.ret 86), .call .background (some k)] := by
  unfold childBranch
  simp only [bind_def]
  rw [handle_sigaction_ok env 86 _ _ hok, background_eq env tokens k hk]
  simp only [bind_returned, Run.after, Run.noreturn, List.singleton_append,
    List.cons_append, List.nil_append]
  have := execEnd_noreturn (α := Arglist) (β := Int) env 201
    (if k = 0 then none else tokens[0]?) (tokens.take k)
  simp only [Run.noreturn] at this
  rw [Run.mk.injEq] at this ⊢
  exact ⟨by rw [this.1], this.2⟩

theorem noreturn_ite {α β : Type} (c : Prop) [Decidable c] (a b : Run α) :
    ((if c then a else b).noreturn : Run β) = if c then a.noreturn else b.noreturn := by
  split_ifs <;> rfl

theorem childBranch_pipeline_eq (env : Env) (tokens : List String) (k : Nat)
    (hk : k < tokens.length) :
    ((childBranch env .pipeline k (mkArglist tokens)).noreturn : Run Int)
      = if env.ret 222 = -1 then
          ⟨[.call .pipeline (some k), .pipe (env.ret 222) env.pipefd.1 env.pipefd.2,
            .perror "pipe", .exit EXIT_FAILURE], .exited EXIT_FAILURE⟩
        else if env.ret 227 = -1 then
          ⟨[.call .pipeline (some k), .pipe (env.ret 222) env.pipefd.1 env.pipefd.2,
            .fork (env.ret 227), .perror "fork", .exit EXIT_FAILURE], .exited EXIT_FAILURE⟩
        else if env.ret 227 = 0 then
          (execEnd env 239 tokens[k + 1]? (tokens.drop (k + 1))).after
            [.call .pipeline (some k), .pipe (env.ret 222) env.pipefd.1 env.pipefd.2,
             .fork (env.ret 227),
             .close env.pipefd.2 (env.ret 236),
             .dup2 env.pipefd.1 0 (env.ret 237),
             .close env.pipefd.1 (env.ret 238)]
        else
          (execEnd env 254 (if k = 0 then none else tokens[0]?) (tokens.take k)).after
            [.call .pipeline (some k), .pipe (env.ret 222) env.pipefd.1 env.pipefd.2,
             .fork (env.ret 227),
             .close env.pipefd.1 (env.ret 251),
             .dup2 env.pipefd.2 1 (env.ret 252),
             .close env.pipefd.2 (env.ret 253)] := by
  show ((pipeline env k (mkArglist tokens)).noreturn : Run Int) = _
  rw [pipeline_eq env tokens k hk]
  simp only [noreturn_ite, after_noreturn, execEnd_noreturn]
  rfl

theorem childBranch_input_eq (env : Env) (tokens : List String) (k : Nat)
    (hk : k < tokens.length) :
    ((childBranch env .input_redirection k (mkArglist tokens)).noreturn : Run Int)
      = if env.ret 273 = -1 then
          ⟨[.call .input_redirection (some k),
            .fopen tokens[k + 1]? [.O_RDONLY] none (env.ret 273),
            .perror "open", .exit EXIT_FAILURE], .exited EXIT_FAILURE⟩
        else
          (execEnd env 284 (if k = 0 then none else tokens[0]?) (tokens.take k)).after
            [.call .input_redirection (some k),
             .fopen tokens[k + 1]? [.O_RDONLY] none (env.ret 273),
             .dup2 (env.ret 273) 0 (env.ret 282),
             .close (env.ret 273) (env.ret 283)] := by
  show ((input_redirection env k (mkArglist tokens)).noreturn : Run Int) = _
  rw [input_redirection_eq env tokens k hk]
  simp only [noreturn_ite, after_noreturn, execEnd_noreturn]
  rfl

theorem childBranch_output_eq (env : Env) (tokens : List String) (k : Nat)
    (hk : k < tokens.length) :
    ((childBranch env .output_redirection k (mkArglist tokens)).noreturn : Run Int)
      = if env.ret 301 = -1 then
          ⟨[.call .output_redirection (some k),
            .fopen tokens[k + 1]? [.O_WRONLY, .O_APPEND, .O_CREAT] (some 0o644) (env.ret 301),
            .perror "open", .exit EXIT_FAILURE], .exited EXIT_FAILURE⟩
        else
          (execEnd env 312 (if k = 0 then none else tokens[0]?) (tokens.take k)).after
            [.call .output_redirection (some k),
             .fopen tokens[k + 1]? [.O_WRONLY, .O_APPEND, .O_CREAT] (some 0o644) (env.ret 301),
             .dup2 (env.ret 301) 1 (env.ret 310),
             .close (env.ret 301) (env.ret 311)] := by
  show ((output_redirection env k (mkArglist tokens)).noreturn : Run Int) = _
  rw [output_redirection_eq env tokens k hk]
  simp only [noreturn_ite, after_noreturn, execEnd_noreturn]
  rfl

/-- The first `|` selects Pipeline unless a redirection operator at index
`count - 2` precedes it. -/
theorem selected_pipeline (tokens : List String) (k : Nat)
    (hk : tokens[k]? = some "|")
    (hfirst : ∀ j, j < k → tokens[j]? ≠ some "|")
    (hredir : ∀ j, j < k → j + 2 = tokens.length →
      tokens[j]? ≠ some "<" ∧ tokens[j]? ≠ some ">>") :
    Selected tokens .pipeline k := by
  have hlt : k < tokens.length := by
    rcases Nat.lt_or_ge k tokens.length with h | h
    · exact h
    · rw [List.getElem?_eq_none h] at hk; cases hk
  constructor
  · simp [matchAt, hk]
  · intro j hj
    apply matchAt_eq_none
    · omega
    · exact hfirst j hj
    · rintro ⟨h1, h2⟩
      exact (hredir j hj h1).1 h2
    · rintro ⟨h1, h2⟩
      exact (hredir j hj h1).2 h2

/-- The parent when Background is selected: one `sigaction`, no wait, `return 1`. -/
theorem background_parent (env : Env) (tokens : List String) (k : Nat)
    (hsel : Selected tokens .background k) (hp : InParent env) (hs : SigactionOk env) :
    dispatch env tokens
      = ⟨[.fork (env.ret 67), .sigaction .SIGCHLD .SIG_IGN (env.ret 95)], .returned 1⟩ := by
  unfold dispatch
  rw [parent_selected env _ _ _ hp.1 hp.2 hsel, parentBranch_background env _ hs.2.2]
  rfl

/-- The child when Background is selected at `k`: the array is cut at `k`. -/
theorem background_child (env : Env) (tokens : List String) (k : Nat)
    (hsel : Selected tokens .background k) (hc : InChild env) (hs : SigactionOk env) :
    dispatch env tokens
      = (execEnd env 201 (tokens.take k).head? (tokens.take k) : Run Int).after
          [.fork 0, .sigaction .SIGINT .SIG_DFL (env.ret 76),
           .sigaction .SIGINT .SIG_IGN (env.ret 86), .call .background (some k)] := by
  have hlt := matchAt_some_lt tokens k _ hsel.1
  have hfile : (if k = 0 then none else tokens[0]?) = (tokens.take k).head? := by
    cases k with
    | zero => simp
    | succ k => cases tokens <;> simp
  rw [child_selected_eq env _ _ _ hc hs.1 hsel,
    childBranch_background_eq env _ _ (Nat.le_of_lt hlt) hs.2.1, hfile]
  simp [Run.after]

/-- A redirection operator followed by exactly one token selects its branch when
no `|` precedes it. -/
theorem selected_input (cmd : List String) (file : String)
    (hpipe : ∀ t, t ∈ cmd → t ≠ "|") :
    Selected (cmd ++ ["<", file]) .input_redirection cmd.length := by
  constructor
  · have h : (cmd ++ ["<", file])[cmd.length]? = some "<" := by
      rw [List.getElem?_append_right (Nat.le_refl _)]; simp
    simp [matchAt, h]
  · intro j hj
    have hget : (cmd ++ ["<", file])[j]? = some cmd[j] := by
      rw [List.getElem?_append_left hj, List.getElem?_eq_getElem hj]
    have hlen : (cmd ++ ["<", file]).length = cmd.length + 2 := by simp
    have hne : (cmd ++ ["<", file])[j]? ≠ some "|" := by
      rw [hget]
      intro h
      exact hpipe _ (List.getElem_mem hj) (Option.some.inj h)
    apply matchAt_eq_none _ _ _ hne <;> rw [hlen] <;> omega

theorem selected_output (cmd : List String) (file : String)
    (hpipe : ∀ t, t ∈ cmd → t ≠ "|") :
    Selected (cmd ++ [">>", file]) .output_redirection cmd.length := by
  constructor
  · have h : (cmd ++ [">>", file])[cmd.length]? = some ">>" := by
      rw [List.getElem?_append_right (Nat.le_refl _)]; simp
    simp [matchAt, h]
  · intro j hj
    have hget : (cmd ++ [">>", file])[j]? = some cmd[j] := by
      rw [List.getElem?_append_left hj, List.getElem?_eq_getElem hj]
    have hlen : (cmd ++ [">>", file]).length = cmd.length + 2 := by simp
    have hne : (cmd ++ [">>", file])[j]? ≠ some "|" := by
      rw [hget]
      intro h
      exact hpipe _ (List.getElem_mem hj) (Option.some.inj h)
    apply matchAt_eq_none _ _ _ hne <;> rw [hlen] <;> omega

theorem invoked_cons (e : Event) (tr : List Event) :
    invoked (e :: tr)
      = (match e with
          | .call x k => [(x, k)]
          | _ => []) ++ invoked tr := by
  cases e <;> simp [invoked]

theorem sigactions_cons (e : Event) (tr : List Event) :
    sigactions (e :: tr)
      = (match e with
          | .sigaction s h _ => [(s, h)]
          | _ => []) ++ sigactions tr := by
  cases e <;> simp [sigactions]

/-- Shape of what the child does in a selected branch: the executor entry, with
`sigaction(SIGINT, SIG_IGN)` before it in Background only, and no further
executor entry or `sigaction` call after it. -/
theorem childBranch_shape (env : Env) (tokens : List String) (b : Executor) (k : Nat)
    (hsig : SigactionOk env) (hsel : Selected tokens b k) :
    ∃ rest, ((childBranch env b k (mkArglist tokens)).noreturn : Run Int).trace
        = (if b = .background then [.sigaction .SIGINT .SIG_IGN (env.ret 86)] else [])
            ++ .call b (some k) :: rest ∧
      invoked rest = [] ∧ sigactions rest = [] := by
  have hlt := matchAt_some_lt tokens k b hsel.1
  cases b with
  | regular => exact absurd hsel (selected_ne_regular tokens k)
  | background =>
    rw [childBranch_background_eq env tokens k (Nat.le_of_lt hlt) hsig.2.1]
    exact ⟨_, rfl, invoked_execEnd _ _ _ _, sigactions_execEnd _ _ _ _⟩
  | pipeline =>
    rw [childBranch_pipeline_eq env tokens k hlt]
    by_cases h1 : env.ret 222 = -1
    · rw [if_pos h1]
      exact ⟨_, rfl, by simp [invoked], by simp [sigactions]⟩
    · rw [if_neg h1]
      by_cases h2 : env.ret 227 = -1
      · rw [if_pos h2]
        exact ⟨_, rfl, by simp [invoked], by simp [sigactions]⟩
      · rw [if_neg h2]
        by_cases h3 : env.ret 227 = 0
        · rw [if_pos h3]
          exact ⟨_, rfl, by simp [invoked_cons, invoked_append, invoked_execEnd],
            by simp [sigactions_cons, sigactions_append, sigactions_execEnd]⟩
        · rw [if_neg h3]
          exact ⟨_, rfl, by simp [invoked_cons, invoked_append, invoked_execEnd],
            by simp [sigactions_cons, sigactions_append, sigactions_execEnd]⟩
  | input_redirection =>
    rw [childBranch_input_eq env tokens k hlt]
    by_cases h1 : env.ret 273 = -1
    · rw [if_pos h1]
      exact ⟨_, rfl, by simp [invoked], by simp [sigactions]⟩
    · rw [if_neg h1]
      exact ⟨_, rfl, by simp [invoked_cons, invoked_append, invoked_execEnd],
        by simp [sigactions_cons, sigactions_append, sigactions_execEnd]⟩
  | output_redirection =>
    rw [childBranch_output_eq env tokens k hlt]
    by_cases h1 : env.ret 301 = -1
    · rw [if_pos h1]
      exact ⟨_, rfl, by simp [invoked], by simp [sigactions]⟩
    · rw [if_neg h1]
      exact ⟨_, rfl, by simp [invoked_cons, invoked_append, invoked_execEnd],
        by simp [sigactions_cons, sigactions_append, sigactions_execEnd]⟩

/-- Shape of the child trace of any token sequence: `fork`, the reset of SIGINT,
then the selected branch (Regular when nothing is selected). -/
theorem child_shape (env : Env) (tokens : List String)
    (hchild : InChild env) (hsig : SigactionOk env) :
    (NoMatch tokens ∧ ∃ rest,
      (dispatch env tokens).trace
        = [.fork 0, .sigaction .SIGINT .SIG_DFL (env.ret 76), .call .regular none] ++ rest ∧
      invoked rest = [] ∧ sigactions rest = []) ∨
    (∃ b k rest, Selected tokens b k ∧
      (dispatch env tokens).trace
        = [.fork 0, .sigaction .SIGINT .SIG_DFL (env.ret 76)]
            ++ ((if b = .background then [.sigaction .SIGINT .SIG_IGN (env.ret 86)] else [])
              ++ .call b (some k) :: rest) ∧
      invoked rest = [] ∧ sigactions rest = []) := by
  rcases selected_or_noMatch tokens with hno | ⟨b, k, hsel⟩
  · left
    refine ⟨hno, (execEnd env 184 tokens[0]? tokens : Run Int).trace, ?_,
      invoked_execEnd env 184 tokens[0]? tokens, sigactions_execEnd env 184 tokens[0]? tokens⟩
    rw [child_noMatch_eq env tokens hchild hsig.1 hno]
    rfl
  · right
    obtain ⟨rest, h1, h2, h3⟩ := childBranch_shape env tokens b k hsig hsel
    refine ⟨b, k, rest, hsel, ?_, h2, h3⟩
    rw [child_selected_eq env tokens b k hchild hsig.1 hsel]
    show _ ++ _ = _
    rw [h1]

theorem child_stops (env : Env) (tokens : List String)
    (hchild : InChild env) (hsig : SigactionOk env) (v : Int) :
    (dispatch env tokens).res ≠ .returned v := by
  rcases selected_or_noMatch tokens with hno | ⟨b, k, hsel⟩
  · rw [child_noMatch_eq env tokens hchild hsig.1 hno]
    exact execEnd_stops env 184 _ _ v
  · rw [child_selected_eq env tokens b k hchild hsig.1 hsel]
    exact noreturn_stops _ v

theorem res_execEnd_some {α : Type} (env : Env) (line : Nat) (f : String)
    (argv : List String) :
    (execEnd env line (some f) argv : Run α).res
      = if env.ret line = -1 then .exited EXIT_FAILURE else .replaced := by
  unfold execEnd
  by_cases h : env.ret line = -1 <;> simp [h]

theorem execs_cons (e : Event) (tr : List Event) :
    execs (e :: tr)
      = (match e with
          | .execvp f a _ => [(f, a)]
          | _ => []) ++ execs tr := by
  cases e <;> simp [execs]

/-! ## The claims -/

/-- C1: in the parent, with `fork` and the `sigaction` calls succeeding,
`process_arglist` either returns exactly 1 or exits with `EXIT_FAILURE`, for every
token sequence; it exits exactly when a `waitpid` call it issued returned -1 with
an error number other than EINTR and ECHILD; such a call is issued only in the
non-background forms (with Background selected the trace holds no wait at all).
As the environment is arbitrary, the value returned depends neither on the child
status stored by `waitpid` nor on the branch matched. -/
theorem c1_parent_returns_one_or_exits (env : Env) (tokens : List String)
    (hp : InParent env) (hsig : SigactionOk env) :
    ((dispatch env tokens).res = .returned 1 ∨
      (dispatch env tokens).res = .exited EXIT_FAILURE) ∧
    ((dispatch env tokens).res = .exited EXIT_FAILURE ↔
      ∃ pid options e stat,
        Event.waitpid pid options (-1) e stat ∈ (dispatch env tokens).trace ∧
          e ≠ EINTR ∧ e ≠ ECHILD) ∧
    ((∃ k, Selected tokens .background k) → waits (dispatch env tokens).trace = []) := by
  rcases parent_cases env tokens hp with ⟨hbg, heq⟩ | ⟨hbg, line, heq⟩
  · rw [heq, parentBranch_background env _ hsig.2.2]
    simp [Run.after, waits]
  · rw [heq, wait_child_eq]
    by_cases h : env.ret line = -1 ∧ env.errno line ≠ EINTR ∧ env.errno line ≠ ECHILD
    · rw [if_pos h]
      refine ⟨Or.inr rfl, ⟨fun _ => ⟨env.ret 67, 0, env.errno line, env.stat, ?_, h.2.1, h.2.2⟩,
        fun _ => rfl⟩, fun hk => absurd hk hbg⟩
      simp [Run.after, h.1]
    · rw [if_neg h]
      refine ⟨Or.inl rfl, ⟨(fun hc => by cases hc), ?_⟩, fun hk => absurd hk hbg⟩
      rintro ⟨pid, options, e, stat, hmem, he1, he2⟩
      simp only [Run.after, List.cons_append, List.nil_append, List.mem_cons,
        List.mem_singleton, Event.waitpid.injEq, reduceCtorEq, false_or, List.not_mem_nil,
        or_false] at hmem
      exact absurd (⟨hmem.2.2.1.symm, hmem.2.2.2.1 ▸ he1, hmem.2.2.2.1 ▸ he2⟩ :
        env.ret line = -1 ∧ env.errno line ≠ EINTR ∧ env.errno line ≠ ECHILD) h

/-- C1 witness: a parent whose wait for `echo hi` fails with error number 5. -/
theorem c1_parent_returns_one_or_exits_witness :
    InParent (parentEnv.at 167 (-1) 5) ∧ SigactionOk (parentEnv.at 167 (-1) 5) ∧
    (dispatch (parentEnv.at 167 (-1) 5) ["echo", "hi"]).res = .exited EXIT_FAILURE :=
  ⟨by decide, by decide,
    ((c1_parent_returns_one_or_exits (parentEnv.at 167 (-1) 5) ["echo", "hi"]
      (by decide) (by decide)).2.1).2 ⟨7, 0, 5, 0, by decide, by decide, by decide⟩⟩

/-- C2 counterexample: for `echo hi` the parent returns 1 although its only wait
was interrupted (`waitpid` returned -1 with EINTR), that is, without the wait
having reported that the program terminated. -/
theorem c2_counterexample_interrupted_wait :
    InParent (parentEnv.at 167 (-1) EINTR) ∧
    (∀ t, t ∈ ["echo", "hi"] → Plain t) ∧
    (dispatch (parentEnv.at 167 (-1) EINTR) ["echo", "hi"]).res = .returned 1 ∧
    (dispatch (parentEnv.at 167 (-1) EINTR) ["echo", "hi"]).trace
      = [.fork 7, .waitpid 7 0 (-1) EINTR 0] := by
  decide

/-- C2 (amended): for a non-empty token sequence `t :: ts` without control token,
the child (its `sigaction` call succeeding) enters Regular only, calls `execvp`
once, on `t` with the whole sequence as argument vector, and performs no
descriptor operation; the parent issues one blocking `waitpid` on the forked pid
and returns 1 exactly when that call succeeded or failed with EINTR or ECHILD,
the `fork` and that `waitpid` being then all it did. -/
theorem c2_regular_exec_and_wait (env : Env) (t : String) (ts : List String)
    (hplain : ∀ x, x ∈ t :: ts → Plain x) :
    (InChild env → SigactionOk env →
      invoked (dispatch env (t :: ts)).trace = [(.regular, none)] ∧
      execs (dispatch env (t :: ts)).trace = [(some t, t :: ts)] ∧
      rewirings (dispatch env (t :: ts)).trace = [] ∧
      ∀ v, (dispatch env (t :: ts)).res ≠ .returned v) ∧
    (InParent env →
      waits (dispatch env (t :: ts)).trace = [(env.ret 67, 0)] ∧
      ((dispatch env (t :: ts)).res = .returned 1 ↔
        (env.ret 167 ≠ -1 ∨ env.errno 167 = EINTR ∨ env.errno 167 = ECHILD)) ∧
      ((dispatch env (t :: ts)).res = .returned 1 →
        (dispatch env (t :: ts)).trace
            = [.fork (env.ret 67),
               .waitpid (env.ret 67) 0 (env.ret 167) (env.errno 167) env.stat])) := by
  have hno := noMatch_of_plain (t :: ts) hplain
  constructor
  · intro hc hs
    rw [child_noMatch_eq env (t :: ts) hc hs.1 hno]
    simp only [Run.after, execs_append, invoked_append, rewirings_append, execs_execEnd,
      invoked_execEnd, rewirings_execEnd]
    refine ⟨by simp [invoked], by simp [execs], by simp [rewirings], ?_⟩
    intro v
    exact execEnd_stops env 184 _ _ v
  · intro hp
    unfold dispatch
    rw [parent_noMatch env (t :: ts) hp.1 hp.2 hno, wait_child_eq]
    by_cases h : env.ret 167 = -1 ∧ env.errno 167 ≠ EINTR ∧ env.errno 167 ≠ ECHILD
    · rw [if_pos h]
      refine ⟨by simp [Run.after, waits], ⟨(fun hc => by cases hc), ?_⟩, fun hc => by cases hc⟩
      rintro (hok | he | he)
      · exact absurd h.1 hok
      · exact absurd he h.2.1
      · exact absurd he h.2.2
    · rw [if_neg h]
      refine ⟨by simp [Run.after, waits], ⟨fun _ => ?_, fun _ => rfl⟩, fun _ => rfl⟩
      by_contra hcon
      push_neg at hcon
      exact h ⟨hcon.1, hcon.2.1, hcon.2.2⟩

/-- C2 witness: `echo hi` in a child whose calls all succeed, and in a parent
whose wait succeeds. -/
theorem c2_regular_exec_and_wait_witness :
    (∀ x, x ∈ ["echo", "hi"] → Plain x) ∧
    execs (dispatch (constEnv 0) ["echo", "hi"]).trace = [(some "echo", ["echo", "hi"])] ∧
    waits (dispatch parentEnv ["echo", "hi"]).trace = [(7, 0)] :=
  ⟨by decide,
    ((c2_regular_exec_and_wait (constEnv 0) "echo" ["hi"] (by decide)).1
      (by decide) (by decide)).2.1,
    ((c2_regular_exec_and_wait parentEnv "echo" ["hi"] (by decide)).2 (by decide)).1⟩

/-- C3 counterexample: three sequences ending in `&`.  For `a | b &` the parent
waits and the second pipeline process receives `&` in its argument vector; for
`a < &` the parent waits as well (Input-Redirection is selected); for `a & &` the
background child receives the earlier `&` in its argument vector. -/
theorem c3_counterexample_trailing_ampersand :
    waits (dispatch parentEnv ["a", "|", "b", "&"]).trace = [(7, 0)] ∧
    execs (dispatch (constEnv 0) ["a", "|", "b", "&"]).trace = [(some "b", ["b", "&"])] ∧
    waits (dispatch parentEnv ["a", "<", "&"]).trace = [(7, 0)] ∧
    execs (dispatch (constEnv 0) ["a", "&", "&"]).trace = [(some "a", ["a", "&"])] := by
  decide

/-- C3 (amended): for a token sequence `init ++ ["&"]` in which no `|` precedes the
final `&` and the token before the final `&` is neither `<` nor `>>`, the parent
(its `sigaction` call succeeding) sets SIGCHLD to ignore and returns 1 without
issuing any wait, and the child (its `sigaction` calls succeeding) enters
Background only and calls `execvp` once, with the sequence without its final `&`
as argument vector. -/
theorem c3_background_no_wait (env : Env) (init : List String)
    (hpipe : ∀ t, t ∈ init → t ≠ "|")
    (hin : init.getLast? ≠ some "<") (hout : init.getLast? ≠ some ">>") :
    (InParent env → SigactionOk env →
      (dispatch env (init ++ ["&"])).res = .returned 1 ∧
      waits (dispatch env (init ++ ["&"])).trace = [] ∧
      (dispatch env (init ++ ["&"])).trace
        = [.fork (env.ret 67), .sigaction .SIGCHLD .SIG_IGN (env.ret 95)]) ∧
    (InChild env → SigactionOk env →
      invoked (dispatch env (init ++ ["&"])).trace = [(.background, some init.length)] ∧
      execs (dispatch env (init ++ ["&"])).trace = [(init.head?, init)] ∧
      ∀ v, (dispatch env (init ++ ["&"])).res ≠ .returned v) := by
  have hsel := selected_background init hpipe hin hout
  constructor
  · intro hp hs
    rw [background_parent env _ _ hsel hp hs]
    exact ⟨rfl, by simp [waits], rfl⟩
  · intro hc hs
    rw [background_child env _ _ hsel hc hs, List.take_left' rfl]
    simp only [Run.after, execs_append, invoked_append, execs_execEnd, invoked_execEnd]
    refine ⟨by simp [invoked], by simp [execs], ?_⟩
    intro v
    exact execEnd_stops env 201 _ _ v

/-- C3 witness: `sleep 5 &` in the child and in the parent. -/
theorem c3_background_no_wait_witness :
    (∀ t, t ∈ ["sleep", "5"] → t ≠ "|") ∧
    execs (dispatch (constEnv 0) (["sleep", "5"] ++ ["&"])).trace
      = [(some "sleep", ["sleep", "5"])] ∧
    waits (dispatch parentEnv (["sleep", "5"] ++ ["&"])).trace = [] :=
  ⟨by decide,
    ((c3_background_no_wait (constEnv 0) ["sleep", "5"] (by decide) (by decide)
      (by decide)).2 (by decide) (by decide)).2.1,
    ((c3_background_no_wait parentEnv ["sleep", "5"] (by decide) (by decide)
      (by decide)).1 (by decide) (by decide)).2.1⟩

/-- C4 counterexample: in `a | b | c` the token at index 3 is `|`, yet the two
programs launched have argument vectors `a` and `b | c` (the split is at index 1
and the second vector contains `|`); in `a < |` the token at index 2 is `|`, yet
Input-Redirection is selected and `a` alone is launched. -/
theorem c4_counterexample_split_index :
    execs (dispatch ((constEnv 0).at 227 9 0) ["a", "|", "b", "|", "c"]).trace
      = [(some "a", ["a"])] ∧
    execs (dispatch (constEnv 0) ["a", "|", "b", "|", "c"]).trace
      = [(some "b", ["b", "|", "c"])] ∧
    invoked (dispatch (constEnv 0) ["a", "<", "|"]).trace
      = [(.input_redirection, some 1)] ∧
    execs (dispatch (constEnv 0) ["a", "<", "|"]).trace = [(some "a", ["a"])] := by
  decide

/-- C4 (amended): let `k` be the first index holding `|`, with no `<` or `>>` at
index `count - 2` before it.  In the child, the `sigaction` call, `pipe` and the
second `fork` succeeding, Pipeline is entered at `k` and two processes each call
`execvp` once: the process created by the second `fork` closes the write end,
calls `dup2` of the read end onto descriptor 0, closes the read end and execs the
tokens after `k`; the other process closes the read end, calls `dup2` of the write
end of the same pipe onto descriptor 1, closes the write end and execs the tokens
before `k`.  `|` is not in the first argument vector, and is in the second exactly
when the sequence holds a further `|` after `k`. -/
theorem c4_pipeline_two_programs (env : Env) (tokens : List String) (k : Nat)
    (hk : tokens[k]? = some "|")
    (hfirst : ∀ j, j < k → tokens[j]? ≠ some "|")
    (hredir : ∀ j, j < k → j + 2 = tokens.length →
      tokens[j]? ≠ some "<" ∧ tokens[j]? ≠ some ">>")
    (hchild : InChild env) (hsig : SigactionOk env)
    (hpipe : env.ret 222 ≠ -1) (hfork : env.ret 227 ≠ -1) :
    invoked (dispatch env tokens).trace = [(.pipeline, some k)] ∧
    (env.ret 227 = 0 →
      (dispatch env tokens).trace
        = [.fork 0, .sigaction .SIGINT .SIG_DFL (env.ret 76), .call .pipeline (some k),
           .pipe (env.ret 222) env.pipefd.1 env.pipefd.2, .fork 0,
           .close env.pipefd.2 (env.ret 236),
           .dup2 env.pipefd.1 0 (env.ret 237),
           .close env.pipefd.1 (env.ret 238)]
          ++ (execEnd env 239 (tokens.drop (k + 1)).head? (tokens.drop (k + 1)) : Run Int).trace ∧
      execs (dispatch env tokens).trace
        = [((tokens.drop (k + 1)).head?, tokens.drop (k + 1))]) ∧
    (env.ret 227 ≠ 0 →
      (dispatch env tokens).trace
        = [.fork 0, .sigaction .SIGINT .SIG_DFL (env.ret 76), .call .pipeline (some k),
           .pipe (env.ret 222) env.pipefd.1 env.pipefd.2, .fork (env.ret 227),
           .close env.pipefd.1 (env.ret 251),
           .dup2 env.pipefd.2 1 (env.ret 252),
           .close env.pipefd.2 (env.ret 253)]
          ++ (execEnd env 254 (tokens.take k).head? (tokens.take k) : Run Int).trace ∧
      execs (dispatch env tokens).trace = [((tokens.take k).head?, tokens.take k)]) ∧
    "|" ∉ tokens.take k ∧
    ("|" ∈ tokens.drop (k + 1) ↔ ∃ j, k < j ∧ tokens[j]? = some "|") := by
  have hsel := selected_pipeline tokens k hk hfirst hredir
  have hlt := matchAt_some_lt tokens k _ hsel.1
  have hleft : (if k = 0 then none else tokens[0]?) = (tokens.take k).head? := by
    cases k with
    | zero => simp
    | succ k => cases tokens <;> simp
  have hright : tokens[k + 1]? = (tokens.drop (k + 1)).head? := by
    rw [List.head?_drop]
  rw [child_selected_eq env tokens _ k hchild hsig.1 hsel, childBranch_pipeline_eq env tokens k hlt,
    if_neg hpipe, if_neg hfork, hleft, hright]
  refine ⟨?_, ?_, ?_, ?_, ?_⟩
  · by_cases h0 : env.ret 227 = 0
    · rw [if_pos h0]
      simp only [Run.after, invoked_append, invoked_execEnd]
      simp [invoked]
    · rw [if_neg h0]
      simp only [Run.after, invoked_append, invoked_execEnd]
      simp [invoked]
  · intro h0
    rw [if_pos h0]
    simp only [Run.after, execs_append, execs_execEnd]
    simp [execs, h0]
  · intro h0
    rw [if_neg h0]
    simp only [Run.after, execs_append, execs_execEnd]
    simp [execs]
  · intro hmem
    obtain ⟨j, hj⟩ := List.mem_iff_getElem?.mp hmem
    rw [List.getElem?_take] at hj
    split_ifs at hj with hjk
    exact hfirst j hjk hj
  · constructor
    · intro hmem
      obtain ⟨j, hj⟩ := List.mem_iff_getElem?.mp hmem
      rw [List.getElem?_drop] at hj
      exact ⟨k + 1 + j, by omega, hj⟩
    · rintro ⟨j, hj, hjt⟩
      apply List.mem_iff_getElem?.mpr
      refine ⟨j - (k + 1), ?_⟩
      rw [List.getElem?_drop]
      have : k + 1 + (j - (k + 1)) = j := by omega
      rw [this, hjt]

/-- C4 witness: `ls | wc -l` in the process created by the second `fork`. -/
theorem c4_pipeline_two_programs_witness :
    execs (dispatch (constEnv 0) ["ls", "|", "wc", "-l"]).trace = [(some "wc", ["wc", "-l"])] ∧
    execs (dispatch ((constEnv 0).at 227 9 0) ["ls", "|", "wc", "-l"]).trace
      = [(some "ls", ["ls"])] :=
  ⟨((c4_pipeline_two_programs (constEnv 0) ["ls", "|", "wc", "-l"] 1 (by decide) (by decide)
      (by decide) (by decide) (by decide) (by decide) (by decide)).2.1 (by decide)).2,
   ((c4_pipeline_two_programs ((constEnv 0).at 227 9 0) ["ls", "|", "wc", "-l"] 1 (by decide)
      (by decide) (by decide) (by decide) (by decide) (by decide) (by decide)).2.2.1
      (by decide)).2⟩

/-- C5 counterexample: in `a | b < f` the token at index `count - 2` is `<`, yet
Pipeline is selected and `<` and `f` are passed as arguments, no file being
opened; in `< f` (count 2) the file is opened but the `execvp` call is made on the
NULL pointer left in slot 0, not on the token `<`. -/
theorem c5_counterexample_input_form :
    invoked (dispatch (constEnv 0) ["a", "|", "b", "<", "f"]).trace = [(.pipeline, some 1)] ∧
    execs (dispatch (constEnv 0) ["a", "|", "b", "<", "f"]).trace
      = [(some "b", ["b", "<", "f"])] ∧
    execs (dispatch (constEnv 0) ["<", "f"]).trace = [(none, [])] := by
  decide

/-- C5 (amended): for a token sequence `c :: cs ++ ["<", file]` (count at least 3)
with no `|` before the `<`, the child (its `sigaction` call succeeding) enters
Input-Redirection and opens `file` read-only; when `open` returns -1 it reports
the error and exits with `EXIT_FAILURE` without any `dup2` or `execvp`; otherwise
it calls `dup2` of the descriptor onto descriptor 0, closes the descriptor and
calls `execvp` on `c` with argument vector `c :: cs`. -/
theorem c5_input_redirection (env : Env) (c : String) (cs : List String) (file : String)
    (hpipe : ∀ t, t ∈ c :: cs → t ≠ "|")
    (hchild : InChild env) (hsig : SigactionOk env) :
    (env.ret 273 = -1 →
      (dispatch env (c :: cs ++ ["<", file])).trace
        = [.fork 0, .sigaction .SIGINT .SIG_DFL (env.ret 76),
           .call .input_redirection (some (cs.length + 1)),
           .fopen (some file) [.O_RDONLY] none (-1),
           .perror "open", .exit EXIT_FAILURE] ∧
      (dispatch env (c :: cs ++ ["<", file])).res = .exited EXIT_FAILURE) ∧
    (env.ret 273 ≠ -1 →
      (dispatch env (c :: cs ++ ["<", file])).trace
        = [.fork 0, .sigaction .SIGINT .SIG_DFL (env.ret 76),
           .call .input_redirection (some (cs.length + 1)),
           .fopen (some file) [.O_RDONLY] none (env.ret 273),
           .dup2 (env.ret 273) 0 (env.ret 282),
           .close (env.ret 273) (env.ret 283)]
          ++ (execEnd env 284 (some c) (c :: cs) : Run Int).trace ∧
      execs (dispatch env (c :: cs ++ ["<", file])).trace = [(some c, c :: cs)]) := by
  have hsel := selected_input (c :: cs) file hpipe
  have hlt : (c :: cs).length < (c :: cs ++ ["<", file]).length := by simp
  have hfile : (c :: cs ++ ["<", file])[(c :: cs).length + 1]? = some file := by
    rw [List.getElem?_append_right (by simp)]; simp
  have htake : (c :: cs ++ ["<", file]).take (c :: cs).length = c :: cs :=
    List.take_left' rfl
  rw [child_selected_eq env _ _ _ hchild hsig.1 hsel, childBranch_input_eq env _ _ hlt,
    hfile, htake]
  constructor
  · intro h
    rw [if_pos h]
    simp [Run.after, h]
  · intro h
    rw [if_neg h]
    simp only [Run.after, execs_append, execs_execEnd]
    simp [execs]

/-- C5 witness: `sort < in.txt` with descriptor 5 returned by `open`. -/
theorem c5_input_redirection_witness :
    execs (dispatch ((constEnv 0).at 273 5 0) ("sort" :: [] ++ ["<", "in.txt"])).trace
      = [(some "sort", ["sort"])] :=
  ((c5_input_redirection ((constEnv 0).at 273 5 0) "sort" [] "in.txt" (by decide)
    (by decide) (by decide)).2 (by decide)).2

/-- C6 counterexample: called at index 0 on `>> f`, the executor opens `f` and
then calls `execvp` on the NULL pointer it stored in slot 0, not on the token at
index 0. -/
theorem c6_counterexample_index_zero :
    (output_redirection (constEnv 3) 0 (mkArglist [">>", "f"])).trace
      = [.call .output_redirection (some 0),
         .fopen (some "f") [.O_WRONLY, .O_APPEND, .O_CREAT] (some 0o644) 3,
         .dup2 3 1 3, .close 3 3, .execvp none [] 3] := by
  decide

/-- C6 (amended): for a token sequence `t :: ts` and an index `i` with
`1 ≤ i < count`, `output_redirection` opens the file named by slot `i + 1` with
flags O_WRONLY, O_APPEND and O_CREAT (no O_TRUNC) and mode 0644; when `open`
returns -1 it reports the error and exits with `EXIT_FAILURE`, no `dup2` or
`execvp` being called; otherwise it calls `dup2` of the descriptor onto
descriptor 1, then closes the descriptor, then calls `execvp` on `t` with the
first `i` tokens as argument vector. -/
theorem c6_output_redirection_steps (env : Env) (t : String) (ts : List String) (i : Nat)
    (hpos : 0 < i) (hlt : i < (t :: ts).length) :
    (env.ret 301 = -1 →
      output_redirection env i (mkArglist (t :: ts))
        = ⟨[.call .output_redirection (some i),
            .fopen (t :: ts)[i + 1]? [.O_WRONLY, .O_APPEND, .O_CREAT] (some 0o644) (-1),
            .perror "open", .exit EXIT_FAILURE], .exited EXIT_FAILURE⟩) ∧
    (env.ret 301 ≠ -1 →
      (output_redirection env i (mkArglist (t :: ts))).trace
        = [.call .output_redirection (some i),
           .fopen (t :: ts)[i + 1]? [.O_WRONLY, .O_APPEND, .O_CREAT] (some 0o644) (env.ret 301),
           .dup2 (env.ret 301) 1 (env.ret 310),
           .close (env.ret 301) (env.ret 311)]
          ++ (execEnd env 312 (some t) ((t :: ts).take i) : Run Arglist).trace ∧
      execs (output_redirection env i (mkArglist (t :: ts))).trace
        = [(some t, (t :: ts).take i)]) ∧
    OFlag.O_TRUNC ∉ [OFlag.O_WRONLY, OFlag.O_APPEND, OFlag.O_CREAT] ∧
    (0o644 : Nat) = 6 * 8 ^ 2 + 4 * 8 + 4 := by
  have hfile : (if i = 0 then none else (t :: ts)[0]?) = some t := by
    rw [if_neg (by omega)]; simp
  rw [output_redirection_eq env (t :: ts) i hlt, hfile]
  refine ⟨?_, ?_, by decide, by decide⟩
  · intro h
    rw [if_pos h]
    simp [h]
  · intro h
    rw [if_neg h]
    simp only [Run.after, execs_append, execs_execEnd]
    simp [execs]

/-- C6 witness: `ls -l >> out.txt`, index 2, with descriptor 5 returned by `open`. -/
theorem c6_output_redirection_steps_witness :
    execs (output_redirection ((constEnv 0).at 301 5 0) 2
      (mkArglist ["ls", "-l", ">>", "out.txt"])).trace = [(some "ls", ["ls", "-l"])] :=
  ((c6_output_redirection_steps ((constEnv 0).at 301 5 0) "ls" ["-l", ">>", "out.txt"] 2
    (by decide) (by decide)).2.1 (by decide)).2

/-- C7: with the `sigaction` calls succeeding, for every token sequence: in the
child the first `sigaction` call sets SIGINT to default, and the SIGINT disposition
in effect when the executor is entered (whatever disposition `d` was inherited) is
ignore when Background is selected and default otherwise; in the parent the
`sigaction` calls are exactly one call setting SIGCHLD to ignore when Background
is selected, and none otherwise. -/
theorem c7_signal_dispositions (env : Env) (tokens : List String) (d : Handler)
    (hsig : SigactionOk env) :
    (InChild env →
      (sigactions (dispatch env tokens).trace).head? = some (.SIGINT, .SIG_DFL) ∧
      ((∃ k, Selected tokens .background k) →
        dispositionAtCall .SIGINT d (dispatch env tokens).trace = some .SIG_IGN) ∧
      ((¬ ∃ k, Selected tokens .background k) →
        dispositionAtCall .SIGINT d (dispatch env tokens).trace = some .SIG_DFL)) ∧
    (InParent env →
      ((∃ k, Selected tokens .background k) →
        sigactions (dispatch env tokens).trace = [(.SIGCHLD, .SIG_IGN)]) ∧
      ((¬ ∃ k, Selected tokens .background k) →
        sigactions (dispatch env tokens).trace = [])) := by
  constructor
  · intro hchild
    rcases child_shape env tokens hchild hsig with ⟨hno, rest, htr, _, _⟩ |
      ⟨b, k, rest, hsel, htr, _, _⟩
    · rw [htr]
      refine ⟨by simp [sigactions_cons], ?_, ?_⟩
      · rintro ⟨k, hk⟩
        have := hno k
        rw [hk.1] at this
        cases this
      · intro _
        simp [dispositionAtCall, hsig.1]
    · rw [htr]
      refine ⟨by simp [sigactions_cons], ?_, ?_⟩
      · rintro ⟨m, hm⟩
        have hb := (selected_unique tokens _ _ _ _ hsel hm).1
        subst hb
        simp [dispositionAtCall, hsig.1, hsig.2.1]
      · intro hnb
        have hb : b ≠ .background := by
          rintro rfl
          exact hnb ⟨k, hsel⟩
        simp [dispositionAtCall, hsig.1, hb]
  · intro hp
    rcases parent_cases env tokens hp with ⟨hbg, heq⟩ | ⟨hbg, line, heq⟩
    · rw [heq, parentBranch_background env _ hsig.2.2]
      exact ⟨fun _ => by simp [Run.after, sigactions], fun h => absurd hbg h⟩
    · rw [heq, wait_child_eq]
      refine ⟨fun h => absurd h hbg, fun _ => ?_⟩
      split_ifs <;> simp [Run.after, sigactions]

/-- C7 witness: the child of `sleep 5 &` runs its executor with SIGINT ignored. -/
theorem c7_signal_dispositions_witness :
    SigactionOk (constEnv 0) ∧
    dispositionAtCall .SIGINT .SIG_IGN (dispatch (constEnv 0) ["sleep", "5", "&"]).trace
      = some .SIG_IGN :=
  ⟨by decide,
    ((c7_signal_dispositions (constEnv 0) ["sleep", "5", "&"] .SIG_IGN (by decide)).1
      (by decide)).2.1 ⟨2, by decide⟩⟩

/-- C8 counterexample: in the second process of `ls | wc` the `dup2` of the read
end onto descriptor 0 returns -1, and the process still calls `execvp` on `wc`
and, the call succeeding, is replaced by it instead of exiting with a failure
status. -/
theorem c8_counterexample_failed_dup2 :
    pipeline ((constEnv 0).at 237 (-1) 9) 1 (mkArglist ["ls", "|", "wc"])
      = ⟨[.call .pipeline (some 1), .pipe 0 3 4, .fork 0, .close 4 0, .dup2 3 0 (-1),
          .close 3 0, .execvp (some "wc") ["wc"] 0], .replaced⟩ := by
  decide

/-- C8 (amended): in `pipeline` called at an index `k` with tokens on both sides
(`0 < k`, `k + 1 < count`): when `pipe` fails, or the second `fork` fails, the
process exits with `EXIT_FAILURE` and calls no `execvp`; otherwise each of the two
processes calls `execvp` exactly once on its command, whatever its `close` and
`dup2` calls returned (their results are recorded in the trace and not
inspected), and exits with `EXIT_FAILURE` when that `execvp` returns -1, being
replaced by the program otherwise. -/
theorem c8_pipeline_failures (env : Env) (tokens : List String) (k : Nat)
    (hpos : 0 < k) (hlt : k + 1 < tokens.length) :
    (env.ret 222 = -1 →
      (pipeline env k (mkArglist tokens)).res = .exited EXIT_FAILURE ∧
      execs (pipeline env k (mkArglist tokens)).trace = []) ∧
    (env.ret 222 ≠ -1 → env.ret 227 = -1 →
      (pipeline env k (mkArglist tokens)).res = .exited EXIT_FAILURE ∧
      execs (pipeline env k (mkArglist tokens)).trace = []) ∧
    (env.ret 222 ≠ -1 → env.ret 227 = 0 →
      Event.dup2 env.pipefd.1 0 (env.ret 237) ∈ (pipeline env k (mkArglist tokens)).trace ∧
      execs (pipeline env k (mkArglist tokens)).trace
        = [(tokens[k + 1]?, tokens.drop (k + 1))] ∧
      (pipeline env k (mkArglist tokens)).res
        = if env.ret 239 = -1 then .exited EXIT_FAILURE else .replaced) ∧
    (env.ret 222 ≠ -1 → env.ret 227 ≠ -1 → env.ret 227 ≠ 0 →
      Event.dup2 env.pipefd.2 1 (env.ret 252) ∈ (pipeline env k (mkArglist tokens)).trace ∧
      execs (pipeline env k (mkArglist tokens)).trace = [(tokens[0]?, tokens.take k)] ∧
      (pipeline env k (mkArglist tokens)).res
        = if env.ret 254 = -1 then .exited EXIT_FAILURE else .replaced) := by
  have hk : k < tokens.length := by omega
  have hk0 : ¬ k = 0 := by omega
  have h0 : tokens[0]? = some tokens[0] := List.getElem?_eq_getElem (by omega)
  have h1 : tokens[k + 1]? = some tokens[k + 1] := List.getElem?_eq_getElem hlt
  rw [pipeline_eq env tokens k hk, if_neg hk0]
  refine ⟨?_, ?_, ?_, ?_⟩
  · intro hp
    rw [if_pos hp]
    exact ⟨rfl, by simp [execs]⟩
  · intro hp hf
    rw [if_neg hp, if_pos hf]
    exact ⟨rfl, by simp [execs]⟩
  · intro hp hf
    have hf1 : env.ret 227 ≠ -1 := by rw [hf]; decide
    rw [if_neg hp, if_neg hf1, if_pos hf]
    refine ⟨by simp [Run.after], ?_, ?_⟩
    · simp [Run.after, execs_cons, execs_append, execs_execEnd]
    · rw [h1]
      exact res_execEnd_some env 239 _ _
  · intro hp hf hf0
    rw [if_neg hp, if_neg hf, if_neg hf0]
    refine ⟨by simp [Run.after], ?_, ?_⟩
    · simp [Run.after, execs_cons, execs_append, execs_execEnd]
    · rw [h0]
      exact res_execEnd_some env 254 _ _

/-- C8 witness: `ls | wc` at index 1 when `pipe` fails. -/
theorem c8_pipeline_failures_witness :
    (pipeline ((constEnv 0).at 222 (-1) 24) 1 (mkArglist ["ls", "|", "wc"])).res
      = .exited EXIT_FAILURE :=
  ((c8_pipeline_failures ((constEnv 0).at 222 (-1) 24) ["ls", "|", "wc"] 1 (by decide)
    (by decide)).1 (by decide)).1

/-- C9: with the `sigaction` calls succeeding, for every token sequence the child
never returns from `process_arglist` and enters exactly one executor: the one of
the branch whose test holds at the smallest index at which any of the four tests
holds (Background: last index and `&`; Pipeline: `|`; Input-Redirection: index
`count - 2` and `<`; Output-Redirection: index `count - 2` and `>>`), with that
index; Regular is entered exactly when no index satisfies a test.  In particular a
sequence ending in `&` with a first `|` at index `k` enters Pipeline at `k`. -/
theorem c9_first_match_selects_executor (env : Env) (tokens : List String)
    (hchild : InChild env) (hsig : SigactionOk env) :
    (∀ v, (dispatch env tokens).res ≠ .returned v) ∧
    (∃ x, invoked (dispatch env tokens).trace = [x]) ∧
    (∀ b k, Selected tokens b k → invoked (dispatch env tokens).trace = [(b, some k)]) ∧
    (invoked (dispatch env tokens).trace = [(.regular, none)] ↔ NoMatch tokens) ∧
    (∀ k, tokens.getLast? = some "&" → tokens[k]? = some "|" →
      (∀ j, j < k → tokens[j]? ≠ some "|") →
      invoked (dispatch env tokens).trace = [(.pipeline, some k)]) := by
  have hall : ∀ b k, Selected tokens b k →
      invoked (dispatch env tokens).trace = [(b, some k)] := by
    intro b k hsel
    rcases child_shape env tokens hchild hsig with ⟨hno, _, _, _, _⟩ |
      ⟨c, m, rest, hsel2, htr, hinv, _⟩
    · have := hno k
      rw [hsel.1] at this
      cases this
    · obtain ⟨hb, hk⟩ := selected_unique tokens _ _ _ _ hsel hsel2
      subst hb hk
      rw [htr]
      by_cases hb : b = .background
      · simp [hb, invoked_cons, invoked_append, hinv]
      · simp [hb, invoked_cons, invoked_append, hinv]
  refine ⟨child_stops env tokens hchild hsig, ?_, hall, ?_, ?_⟩
  · rcases child_shape env tokens hchild hsig with ⟨_, rest, htr, hinv, _⟩ |
      ⟨b, k, _, hsel, _, _, _⟩
    · exact ⟨(.regular, none), by rw [htr]; simp [invoked_cons, invoked_append, hinv]⟩
    · exact ⟨(b, some k), hall b k hsel⟩
  · rcases child_shape env tokens hchild hsig with ⟨hno, rest, htr, hinv, _⟩ |
      ⟨b, k, _, hsel, _, _, _⟩
    · exact ⟨fun _ => hno, fun _ => by rw [htr]; simp [invoked_cons, invoked_append, hinv]⟩
    · rw [hall b k hsel]
      constructor
      · intro h
        simp at h
      · intro hno
        have := hno k
        rw [hsel.1] at this
        cases this
  · intro k hlast hk hfirst
    apply hall
    apply selected_pipeline tokens k hk hfirst
    intro j hj hj2
    exfalso
    have hklt : k < tokens.length := by
      rcases Nat.lt_or_ge k tokens.length with h | h
      · exact h
      · rw [List.getElem?_eq_none h] at hk; cases hk
    rw [List.getLast?_eq_getElem?] at hlast
    have hke : tokens.length - 1 = k := by omega
    rw [hke, hk] at hlast
    simp at hlast

/-- C9 witness: `a | b &` enters Pipeline at index 1, not Background. -/
theorem c9_first_match_selects_executor_witness :
    InChild (constEnv 0) ∧ SigactionOk (constEnv 0) ∧
    invoked (dispatch (constEnv 0) ["a", "|", "b", "&"]).trace = [(.pipeline, some 1)] :=
  ⟨by decide, by decide,
    (c9_first_match_selects_executor (constEnv 0) ["a", "|", "b", "&"] (by decide)
      (by decide)).2.2.2.2 1 (by decide) (by decide) (by decide)⟩

/-- C10 counterexample: for `cmd < file &` the child enters Background (not
Regular) and execs `cmd` with `cmd < file`, the `&` removed; the parent issues no
wait and returns 1. -/
theorem c10_counterexample_redirect_background :
    invoked (dispatch (constEnv 0) ["cmd", "<", "file", "&"]).trace
      = [(.background, some 3)] ∧
    execs (dispatch (constEnv 0) ["cmd", "<", "file", "&"]).trace
      = [(some "cmd", ["cmd", "<", "file"])] ∧
    waits (dispatch parentEnv ["cmd", "<", "file", "&"]).trace = [] ∧
    (dispatch parentEnv ["cmd", "<", "file", "&"]).trace
      = [.fork 7, .sigaction .SIGCHLD .SIG_IGN 0] ∧
    (dispatch parentEnv ["cmd", "<", "file", "&"]).res = .returned 1 := by
  decide

/-- C10 (amended): for a token sequence `cmd ++ [op, file, "&"]` with `op` one of
`<` and `>>`, no `|` token, and `file` itself neither `<` nor `>>`, the Background
branch is selected: the parent (its `sigaction` call succeeding) sets SIGCHLD to
ignore and returns 1 without waiting, and the child (its `sigaction` calls
succeeding) enters Background only and calls `execvp` once with the sequence
without its final `&` as argument vector, so that `op` and `file` are passed
literally as program arguments. -/
theorem c10_redirect_with_background (env : Env) (cmd : List String) (op file : String)
    (hop : op = "<" ∨ op = ">>")
    (hpipe : ∀ t, t ∈ cmd → t ≠ "|")
    (hfile : file ≠ "|" ∧ file ≠ "<" ∧ file ≠ ">>") :
    (InParent env → SigactionOk env →
      (dispatch env (cmd ++ [op, file, "&"])).res = .returned 1 ∧
      waits (dispatch env (cmd ++ [op, file, "&"])).trace = [] ∧
      (dispatch env (cmd ++ [op, file, "&"])).trace
        = [.fork (env.ret 67), .sigaction .SIGCHLD .SIG_IGN (env.ret 95)]) ∧
    (InChild env → SigactionOk env →
      invoked (dispatch env (cmd ++ [op, file, "&"])).trace
        = [(.background, some (cmd.length + 2))] ∧
      execs (dispatch env (cmd ++ [op, file, "&"])).trace
        = [((cmd ++ [op, file]).head?, cmd ++ [op, file])] ∧
      op ∈ cmd ++ [op, file] ∧ file ∈ cmd ++ [op, file]) := by
  have hassoc : cmd ++ [op, file, "&"] = (cmd ++ [op, file]) ++ ["&"] := by simp
  have hp2 : ∀ t, t ∈ cmd ++ [op, file] → t ≠ "|" := by
    intro t ht
    simp only [List.mem_append, List.mem_cons, List.mem_singleton, List.not_mem_nil,
      or_false] at ht
    rcases ht with ht | rfl | rfl
    · exact hpipe t ht
    · rcases hop with h | h <;> rw [h] <;> decide
    · exact hfile.1
  have hl : (cmd ++ [op, file]).getLast? = some file := by simp
  have hsel := selected_background (cmd ++ [op, file]) hp2
    (by rw [hl]; exact fun h => hfile.2.1 (Option.some.inj h))
    (by rw [hl]; exact fun h => hfile.2.2 (Option.some.inj h))
  have hlen : (cmd ++ [op, file]).length = cmd.length + 2 := by simp
  rw [hassoc]
  constructor
  · intro hp hs
    rw [background_parent env _ _ hsel hp hs]
    exact ⟨rfl, by simp [waits], rfl⟩
  · intro hc hs
    rw [background_child env _ _ hsel hc hs, List.take_left' rfl, hlen]
    simp only [Run.after, execs_append, invoked_append, execs_execEnd, invoked_execEnd]
    exact ⟨by simp [invoked], by simp [execs], by simp, by simp⟩

/-- C10 witness: `cmd < file &` in the child. -/
theorem c10_redirect_with_background_witness :
    execs (dispatch (constEnv 0) (["cmd"] ++ ["<", "file", "&"])).trace
      = [((["cmd"] ++ ["<", "file"]).head?, ["cmd"] ++ ["<", "file"])] :=
  ((c10_redirect_with_background (constEnv 0) ["cmd"] "<" "file" (by decide) (by decide)
    (by decide)).2 (by decide) (by decide)).2.1

end MiniShell
